import Mathlib

/-!
Verification development for the nionswift persistent entity graph and its
connection layer.  The definitions embed `nion/swift/model/Connection.py`
directly; the entity schema machinery (`Schema.py`, `Persistence.py`) is not
part of the sources and is modelled from the specification where needed.
-/

namespace NSModel

/-- Association-list lookup, modelling Python attribute/dict access. -/
def findVal {α β : Type} [DecidableEq α] (k : α) : List (α × β) → Option β
  | [] => none
  | (k', v) :: rest => if k' = k then some v else findVal k rest

/-- Association-list update-or-insert, modelling Python attribute/dict assignment. -/
def setVal {α β : Type} [DecidableEq α] (k : α) (v : β) : List (α × β) → List (α × β)
  | [] => [(k, v)]
  | (k', v') :: rest => if k' = k then (k, v) :: rest else (k', v') :: setVal k v rest

/-- A plain persistent object as seen by a `PropertyConnection`: a bag of
named properties.  Property values are modelled as integers. -/
structure Obj where
  props : List (String × Int)
deriving DecidableEq

/-- Runtime state of a `PropertyConnection` together with the registry of the
surrounding context and the property stores of all objects.

Fields mirror the Python instance state: `binding` is `__binding is not None`,
`targetListener` is `__target_property_changed_listener is not None`,
`suppress` is `__suppress`, `closed` is `_closed`.  `registry` is the set of
uuids currently registered in the persistent object context (an `ItemReference`
resolves exactly when its uuid is registered, per the spec of §4.4). -/
structure PCState where
  connUuid : Nat
  sourceId : Nat
  sourceProperty : String
  targetId : Nat
  targetProperty : String
  registry : List Nat
  objs : List (Nat × Obj)
  binding : Bool
  targetListener : Bool
  suppress : Bool
  closed : Bool
deriving DecidableEq

/-- Faults: a failed `assert`, exhausted evaluation fuel, or a missing
attribute (`getattr` failure). -/
inductive PErr where
  | assertionFailed
  | outOfFuel
  | attrError
deriving DecidableEq

/-- Write property `p` of object `oid` (Python `setattr`). -/
def writeProp (s : PCState) (oid : Nat) (p : String) (v : Int) : PCState :=
  let obj := (findVal oid s.objs).getD ⟨[]⟩
  { s with objs := setVal oid ⟨setVal p v obj.props⟩ s.objs }

/-- Read property `p` of object `oid` (Python `getattr`). -/
def getProp (s : PCState) (oid : Nat) (p : String) : Option Int :=
  (findVal oid s.objs).bind (fun o => findVal p o.props)

/-- Sequencing of fallible steps (propagate an error, else continue). -/
def pipe (r : Except PErr PCState) (g : PCState → Except PErr PCState) :
    Except PErr PCState :=
  match r with
  | .error e => .error e
  | .ok s => g s

@[simp] theorem pipe_ok (s : PCState) (g : PCState → Except PErr PCState) :
    pipe (.ok s) g = g s := rfl

@[simp] theorem pipe_error (e : PErr) (g : PCState → Except PErr PCState) :
    pipe (.error e) g = .error e := rfl

mutual

/-- Setting a property on an object, together with the synchronous, depth-first
dispatch of the `property_changed` listeners held by the connection: the
`PropertyBinding`'s listener on the source property (present iff `binding`),
and the target-property listener (present iff `targetListener`).  `fuel`
bounds the dispatch depth. -/
def setProp : Nat → PCState → Nat → String → Int → Except PErr PCState
  | 0, _, _, _, _ => .error .outOfFuel
  | f + 1, s, oid, p, v =>
    let s1 := writeProp s oid p v
    pipe (if s1.binding ∧ oid = s1.sourceId ∧ p = s1.sourceProperty then
            setTargetFromSource f s1 v else .ok s1)
      (fun s2 =>
        if s2.targetListener ∧ oid = s2.targetId ∧ p = s2.targetProperty then
          setSourceFromTarget f s2 v
        else .ok s2)

/-- `PropertyConnection.__set_target_from_source`. -/
def setTargetFromSource : Nat → PCState → Int → Except PErr PCState
  | 0, _, _ => .error .outOfFuel
  | f + 1, s, v =>
    if s.closed then .error .assertionFailed
    else if s.suppress then .ok s
    else
      pipe (setProp f { s with suppress := true } s.targetId s.targetProperty v)
        (fun s2 => .ok { s2 with suppress := false })

/-- `PropertyConnection.__set_source_from_target`. -/
def setSourceFromTarget : Nat → PCState → Int → Except PErr PCState
  | 0, _, _ => .error .outOfFuel
  | f + 1, s, v =>
    if s.closed then .error .assertionFailed
    else if s.suppress then .ok s
    else
      pipe (if s.binding then
              setProp f { s with suppress := true } s.sourceId s.sourceProperty v
            else .ok { s with suppress := true })
        (fun s2 => .ok { s2 with suppress := false })

end

/-- `configure_binding` (local function in `PropertyConnection.__init__`):
when both endpoints resolve, assert no binding exists yet, create the
property binding and push the source's current value to the target
(`update_target_direct(get_target_value())`). -/
def configureBinding (s : PCState) : Except PErr PCState :=
  if s.sourceId ∈ s.registry ∧ s.targetId ∈ s.registry then
    if s.binding then .error .assertionFailed
    else
      match getProp s s.sourceId s.sourceProperty with
      | none => .error .attrError
      | some v => setTargetFromSource 4 { s with binding := true } v
  else .ok s

/-- `configure_target`: assert no target listener, attach one when the target
resolves, then `configure_binding`. -/
def configureTarget (s : PCState) : Except PErr PCState :=
  if s.targetListener then .error .assertionFailed
  else configureBinding
    (if s.targetId ∈ s.registry then { s with targetListener := true } else s)

/-- `release_binding`: close the property binding and the target listener. -/
def releaseBinding (s : PCState) : PCState :=
  { s with binding := false, targetListener := false }

/-- Context registration of uuid `oid`, with fan-out to the connection's item
references: the source reference runs `configure_binding`, the target
reference runs `configure_target`. -/
def registerItem (s : PCState) (oid : Nat) : Except PErr PCState :=
  let s1 := { s with registry := oid :: s.registry }
  pipe (if oid = s1.sourceId then configureBinding s1 else .ok s1)
    (fun s2 => if oid = s2.targetId then configureTarget s2 else .ok s2)

/-- Context unregistration of uuid `oid`: either endpoint becoming
unregistered runs `release_binding`. -/
def unregisterItem (s : PCState) (oid : Nat) : PCState :=
  let s1 := { s with registry := s.registry.erase oid }
  let s2 := if oid = s1.sourceId then releaseBinding s1 else s1
  if oid = s2.targetId then releaseBinding s2 else s2

/-- `PropertyConnection.close`: release the binding and the target listener,
then the superclass close marks the object closed. -/
def closeConn (s : PCState) : PCState :=
  { s with binding := false, targetListener := false, closed := true }

/-- `Connection.clone`: `copy.deepcopy(self)` produces a copy (whose fresh
uuid is `u`), whose uuid is then overwritten with the original's uuid. -/
def cloneWith (s : PCState) (u : Nat) : PCState :=
  let deepcopy := { s with connUuid := u }
  { deepcopy with connUuid := s.connUuid }

/-- The operations of the public interface acting on a property connection's
world: context registration, unregistration, and property sets. -/
inductive POp where
  | registerOp (oid : Nat)
  | unregisterOp (oid : Nat)
  | setOp (oid : Nat) (p : String) (v : Int)
deriving DecidableEq

/-- One public-interface step. -/
def step (s : PCState) : POp → Except PErr PCState
  | .registerOp oid => registerItem s oid
  | .unregisterOp oid => .ok (unregisterItem s oid)
  | .setOp oid p v => setProp 4 s oid p v

/-- The final state of one property set with full listener dispatch: the raw
write, at most one forwarded write from source to target, and at most one
forwarded write from target back to source. -/
def propagateResult (s : PCState) (oid : Nat) (p : String) (v : Int) : PCState :=
  let s1 := writeProp s oid p v
  let s2 := if s1.binding ∧ oid = s1.sourceId ∧ p = s1.sourceProperty then
              writeProp s1 s1.targetId s1.targetProperty v else s1
  if s2.targetListener ∧ oid = s2.targetId ∧ p = s2.targetProperty then
    (if s2.binding then writeProp s2 s2.sourceId s2.sourceProperty v else s2)
  else s2

/-- All connection-relevant state apart from the property stores: the frame
preserved by pure property propagation. -/
def sameFrame (s s' : PCState) : Prop :=
  s'.connUuid = s.connUuid ∧ s'.sourceId = s.sourceId ∧
  s'.sourceProperty = s.sourceProperty ∧ s'.targetId = s.targetId ∧
  s'.targetProperty = s.targetProperty ∧ s'.registry = s.registry ∧
  s'.binding = s.binding ∧ s'.targetListener = s.targetListener ∧
  s'.suppress = s.suppress ∧ s'.closed = s.closed

/-- The lifecycle invariant of a property connection: quiescent between
operations, the binding exists only while both endpoints are registered, and
the target listener only while the target is registered. -/
def Inv (s : PCState) : Prop :=
  s.suppress = false ∧
  (s.binding = true → s.sourceId ∈ s.registry ∧ s.targetId ∈ s.registry) ∧
  (s.targetListener = true → s.targetId ∈ s.registry)

/-- A closed example connection state used by witnesses. -/
def closedExample : PCState :=
  { connUuid := 0, sourceId := 1, sourceProperty := "a", targetId := 2,
    targetProperty := "b", registry := [], objs := [], binding := false,
    targetListener := false, suppress := false, closed := true }

/-- An example bound property-connection state: source object 1 with property
"a", target object 2 with property "b", both registered, binding live. -/
def boundExample : PCState :=
  { connUuid := 0, sourceId := 1, sourceProperty := "a", targetId := 2,
    targetProperty := "b", registry := [1, 2],
    objs := [(1, ⟨[("a", 10)]⟩), (2, ⟨[("b", 10)]⟩)], binding := true,
    targetListener := true, suppress := false, closed := false }

/-- An example dormant property-connection state: both endpoints specified,
source registered, target not yet registered, no binding, no listener. -/
def dormantExample : PCState :=
  { connUuid := 0, sourceId := 1, sourceProperty := "a", targetId := 2,
    targetProperty := "b", registry := [1],
    objs := [(1, ⟨[("a", 10)]⟩), (2, ⟨[("b", 0)]⟩)], binding := false,
    targetListener := false, suppress := false, closed := false }

/-- An example property-connection state whose target is registered while the
source is not yet registered. -/
def preSourceExample : PCState :=
  { connUuid := 0, sourceId := 1, sourceProperty := "a", targetId := 2,
    targetProperty := "b", registry := [2],
    objs := [(1, ⟨[("a", 10)]⟩), (2, ⟨[("b", 0)]⟩)], binding := false,
    targetListener := false, suppress := false, closed := false }

/-- A graphic owned by a display: only interval graphics project into
interval descriptors. -/
structure Graphic where
  gid : Nat
  isInterval : Bool
  interval : Int × Int
deriving DecidableEq

/-- An interval descriptor projected onto the line profile
(`{"interval": .., "color": "#F00"}`). -/
structure IntervalDescriptor where
  interval : Int × Int
  color : String
deriving DecidableEq

/-- The line-profile target: its `interval_descriptors` property and a count
of assignments to it (each assignment emits one change notification). -/
structure LineProfileTarget where
  intervalDescriptors : List IntervalDescriptor
  setCount : Nat
deriving DecidableEq

/-- Runtime state of an `IntervalListConnection`: the source display's
graphics, the resolution state of both endpoints, the target line profile,
the ids of the interval graphics currently holding an interval-mutated
listener (`__interval_mutated_listeners`), whether the item-inserted and
item-removed listeners are attached, and the closed flag. -/
structure ILCState where
  graphics : List Graphic
  sourceResolved : Bool
  targetResolved : Bool
  target : LineProfileTarget
  intervalListeners : List Nat
  itemListeners : Bool
  closedI : Bool
deriving DecidableEq

/-- The projected descriptor list: one entry per interval graphic of the
resolved source. -/
def computeDescriptors (s : ILCState) : List IntervalDescriptor :=
  if s.sourceResolved then
    s.graphics.filterMap
      (fun g => if g.isInterval then some ⟨g.interval, "#F00"⟩ else none)
  else []

/-- `reattach` (local function in `IntervalListConnection.__init__`): detach
all interval-mutated listeners, re-listen to every interval graphic of the
source, and assign the recomputed descriptor list to the target only when it
differs from the target's current list. -/
def reattach (s : ILCState) : ILCState :=
  let listeners := if s.sourceResolved then
      (s.graphics.filter (fun g => g.isInterval)).map (fun g => g.gid)
    else []
  let s1 := { s with intervalListeners := listeners }
  if s.targetResolved then
    if s.target.intervalDescriptors ≠ computeDescriptors s then
      { s1 with target := ⟨computeDescriptors s, s.target.setCount + 1⟩ }
    else s1
  else s1

/-- A graphic is inserted into the source display's graphics; the
`item_inserted` handler reattaches when the key is "graphics" and the target
is resolved. -/
def insertGraphic (s : ILCState) (g : Graphic) : ILCState :=
  let s1 := { s with graphics := s.graphics ++ [g] }
  if s1.itemListeners ∧ s1.targetResolved then reattach s1 else s1

/-- A graphic is removed from the source display's graphics; the
`item_removed` handler reattaches when the key is "graphics" and the target
is resolved. -/
def removeGraphic (s : ILCState) (gid : Nat) : ILCState :=
  let s1 := { s with graphics := s.graphics.filter (fun g => g.gid ≠ gid) }
  if s1.itemListeners ∧ s1.targetResolved then reattach s1 else s1

/-- A tracked interval graphic's property changes: its per-graphic
interval-mutated listener fires `reattach`. -/
def mutateGraphic (s : ILCState) (gid : Nat) (iv : Int × Int) : ILCState :=
  let gs := s.graphics.map (fun g => if g.gid = gid then { g with interval := iv } else g)
  let s1 := { s with graphics := gs }
  if gid ∈ s1.intervalListeners then reattach s1 else s1

/-- `close()` on an `IntervalListConnection`: the class defines no close
override, so only the inherited `PersistentObject.close` runs (modelled from
the spec: it marks the instance closed and releases the resources the
persistent-object machinery itself holds); nothing on this path touches the
locally held `__interval_mutated_listeners` list, which stays as it is. -/
def closeILC (s : ILCState) : ILCState :=
  { s with closedI := true }

/-- An interval-list connection whose resolved source display holds one
interval graphic (gid 3) and whose target currently holds no descriptors. -/
def ilcExample : ILCState :=
  { graphics := [⟨3, true, (1, 2)⟩], sourceResolved := true,
    targetResolved := true, target := ⟨[], 0⟩, intervalListeners := [],
    itemListeners := true, closedI := false }

/-- An interval-list connection in steady state: the target's descriptor list
already matches the projection of the source's single interval graphic. -/
def ilcSteadyExample : ILCState :=
  { graphics := [⟨3, true, (1, 2)⟩], sourceResolved := true,
    targetResolved := true, target := ⟨[⟨(1, 2), "#F00"⟩], 0⟩,
    intervalListeners := [3], itemListeners := true, closedI := false }

/-- The connection kinds produced by `connection_factory`. -/
inductive ConnKind where
  | propertyConnection
  | intervalListConnection
deriving DecidableEq

/-- `connection_factory`: dispatch on the stored type discriminator through
`build_map`, returning `None` for unknown discriminators. -/
def connection_factory (type : String) : Option ConnKind :=
  if type = "property-connection" then some .propertyConnection
  else if type = "interval-list-connection" then some .intervalListConnection
  else none

end NSModel

namespace SchemaM

/-- Scalar values of entity fields. -/
inductive SVal where
  | boolV : Bool → SVal
  | intV : Int → SVal
  | strV : String → SVal
  | nullV : SVal
deriving DecidableEq

/-- Field kinds of an entity schema: scalar property with default, reference
to an entity type, owned component of an entity type, and arrays of
components or of references. -/
inductive FieldKind where
  | propK : SVal → FieldKind
  | referenceK : String → FieldKind
  | componentK : String → FieldKind
  | arrayComponentK : String → FieldKind
  | arrayReferenceK : String → FieldKind
deriving DecidableEq

/-- An entity type: its ordered field declarations. -/
abbrev EntityType := List (String × FieldKind)

/-- A schema: entity type name to field declarations. -/
abbrev Schema := List (String × EntityType)

mutual

/-- A runtime entity: type name, uuid, modified timestamp, and field values. -/
inductive Ent where
  | mk : String → Nat → Nat → List (String × FVal) → Ent

/-- A runtime field value: scalar, reference (stored as an optional uuid
specifier), owned component, array of components, array of references. -/
inductive FVal where
  | scalarF : SVal → FVal
  | refF : Option Nat → FVal
  | compF : Option Ent → FVal
  | arrCompF : List Ent → FVal
  | arrRefF : List Nat → FVal

end

mutual

/-- A serialized record: type, uuid, modified, then one entry per field. -/
inductive DRec where
  | mk : String → Nat → Nat → List (String × DVal) → DRec

/-- A serialized field value: scalar literal, specifier-or-null, nested
record-or-null, array of nested records, array of specifiers. -/
inductive DVal where
  | scalarD : SVal → DVal
  | specD : Option Nat → DVal
  | recordD : Option DRec → DVal
  | recordsD : List DRec → DVal
  | specsD : List Nat → DVal

end

def Ent.etype : Ent → String
  | .mk t _ _ _ => t

def Ent.uuidE : Ent → Nat
  | .mk _ u _ _ => u

def Ent.modifiedE : Ent → Nat
  | .mk _ _ m _ => m

def Ent.fields : Ent → List (String × FVal)
  | .mk _ _ _ fs => fs

def DRec.uuidD : DRec → Nat
  | .mk _ u _ _ => u

mutual

/-- `write_to_dict` on an entity: emit type, uuid, modified, every scalar
field literally, every component recursively, every reference as its
specifier only. -/
def writeEnt : Ent → DRec
  | .mk t u m fs => .mk t u m (writeFields fs)

def writeFields : List (String × FVal) → List (String × DVal)
  | [] => []
  | (k, fv) :: rest => (k, writeFVal fv) :: writeFields rest

def writeFVal : FVal → DVal
  | .scalarF sv => .scalarD sv
  | .refF r => .specD r
  | .compF none => .recordD none
  | .compF (some e) => .recordD (some (writeEnt e))
  | .arrCompF es => .recordsD (writeEnts es)
  | .arrRefF rs => .specsD rs

def writeEnts : List Ent → List DRec
  | [] => []
  | e :: rest => writeEnt e :: writeEnts rest

end

mutual

/-- `read_from_dict`/`build`: look the record's type up in the schema and
hydrate each declared field from the record, failing on a kind mismatch or a
missing field. -/
def readEnt (schema : Schema) : DRec → Option Ent
  | .mk t u m dfs =>
    match List.lookup t schema with
    | none => none
    | some ftypes =>
      match readFields schema ftypes dfs with
      | none => none
      | some fs => some (.mk t u m fs)

def readFields (schema : Schema) :
    List (String × FieldKind) → List (String × DVal) →
    Option (List (String × FVal))
  | [], [] => some []
  | (k, fk) :: specs, (k', dv) :: dfs =>
    if k = k' then
      match readFVal schema fk dv, readFields schema specs dfs with
      | some fv, some rest => some ((k, fv) :: rest)
      | _, _ => none
    else none
  | _, _ => none

def readFVal (schema : Schema) : FieldKind → DVal → Option FVal
  | .propK _, .scalarD sv => some (.scalarF sv)
  | .referenceK _, .specD r => some (.refF r)
  | .componentK _, .recordD none => some (.compF none)
  | .componentK _, .recordD (some dr) =>
    match readEnt schema dr with
    | none => none
    | some e => some (.compF (some e))
  | .arrayComponentK _, .recordsD drs =>
    match readEnts schema drs with
    | none => none
    | some es => some (.arrCompF es)
  | .arrayReferenceK _, .specsD rs => some (.arrRefF rs)
  | _, _ => none

def readEnts (schema : Schema) : List DRec → Option (List Ent)
  | [] => some []
  | dr :: drs =>
    match readEnt schema dr, readEnts schema drs with
    | some e, some es => some (e :: es)
    | _, _ => none

end

mutual

/-- Well-formedness of an entity against a schema: its type is declared and
its fields agree, in order, with the declared field kinds. -/
def wfEnt (schema : Schema) : Ent → Bool
  | .mk t _ _ fs =>
    match List.lookup t schema with
    | none => false
    | some ftypes => wfFields schema ftypes fs

def wfFields (schema : Schema) :
    List (String × FieldKind) → List (String × FVal) → Bool
  | [], [] => true
  | (k, fk) :: specs, (k', fv) :: fs =>
    decide (k = k') && wfFVal schema fk fv && wfFields schema specs fs
  | _, _ => false

def wfFVal (schema : Schema) : FieldKind → FVal → Bool
  | .propK _, .scalarF _ => true
  | .referenceK _, .refF _ => true
  | .componentK _, .compF none => true
  | .componentK _, .compF (some e) => wfEnt schema e
  | .arrayComponentK _, .arrCompF es => wfEnts schema es
  | .arrayReferenceK _, .arrRefF _ => true
  | _, _ => false

def wfEnts (schema : Schema) : List Ent → Bool
  | [] => true
  | e :: rest => wfEnt schema e && wfEnts schema rest

end

def exampleSchema : Schema :=
  [("item", [("flag", .propK (.boolV false))]),
   ("c", [("title", .propK (.strV "")), ("item", .referenceK "item"),
     ("child", .componentK "item"), ("c_items", .arrayComponentK "item"),
     ("r_items", .arrayReferenceK "item")])]

def exampleEntity : Ent :=
  .mk "c" 5 1 [("title", .scalarF (.strV "t")), ("item", .refF (some 7)),
    ("child", .compF (some (.mk "item" 8 1 [("flag", .scalarF (.boolV true))]))),
    ("c_items", .arrCompF [.mk "item" 9 2 [("flag", .scalarF (.boolV false))]]),
    ("r_items", .arrRefF [7, 9])]

end SchemaM

namespace HeapM

open SchemaM

/-- A runtime field value in the registry-backed instance model: components
are stored as owned child uuids, references as uuids. -/
inductive RVal where
  | scalarR : SVal → RVal
  | refR : Option Nat → RVal
  | compR : Option Nat → RVal
  | arrCompR : List Nat → RVal
  | arrRefR : List Nat → RVal
deriving DecidableEq

/-- A live instance: entity type, container back-reference, field values. -/
structure Inst where
  etypeI : String
  containerI : Option Nat
  fieldsI : List (String × RVal)
deriving DecidableEq

/-- Event kinds observable on a persistent object. -/
inductive EvKind where
  | insertedE
  | removedE
  | propertyChangedE
deriving DecidableEq

/-- One event record: emitting object, kind, field key, index. -/
structure Ev where
  objE : Nat
  kindE : EvKind
  keyE : String
  indexE : Nat
deriving DecidableEq

/-- The world: the context's registry (uuid to instance) and the log of all
events fired so far. -/
structure World where
  registry : List (Nat × Inst)
  events : List Ev
deriving DecidableEq

/-- Update the instance stored under `k`. -/
def updateReg (reg : List (Nat × Inst)) (k : Nat) (i : Inst) : List (Nat × Inst) :=
  reg.map (fun kv => if kv.1 = k then (k, i) else kv)

/-- The container back-reference of the object registered under `c`. -/
def containerOf (w : World) (c : Nat) : Option (Option Nat) :=
  (NSModel.findVal c w.registry).map (fun i => i.containerI)

def setFieldI (i : Inst) (k : String) (v : RVal) : Inst :=
  { i with fieldsI := NSModel.setVal k v i.fieldsI }

/-- Clear or set the container back-reference of the object under `c`. -/
def setContainer (reg : List (Nat × Inst)) (c : Nat) (v : Option Nat) :
    List (Nat × Inst) :=
  match NSModel.findVal c reg with
  | some ic => updateReg reg c { ic with containerI := v }
  | none => reg

/-- Default field value per declared kind. -/
def defaultVal : FieldKind → RVal
  | .propK d => .scalarR d
  | .referenceK _ => .refR none
  | .componentK _ => .compR none
  | .arrayComponentK _ => .arrCompR []
  | .arrayReferenceK _ => .arrRefR []

def defaultFields : List (String × FieldKind) → List (String × RVal)
  | [] => []
  | (k, fk) :: rest => (k, defaultVal fk) :: defaultFields rest

/-- `Entity.create`: allocate an instance of a declared type with a fresh
uuid, default fields and no container, and register it. -/
def createInst (schema : Schema) (w : World) (t : String) (u : Nat) : Option World :=
  match List.lookup t schema with
  | none => none
  | some ftypes =>
    match NSModel.findVal u w.registry with
    | some _ => none
    | none =>
      some { w with registry := (u, ⟨t, none, defaultFields ftypes⟩) :: w.registry }

/-- `_append_item`: append `c` to the array field `key` of `p`.  Appending to
an array-of-component field takes ownership (sets the child's container);
appending to an array-of-reference field stores the uuid only.  Exactly one
`item_inserted` event is fired, after the mutation. -/
def appendItem (w : World) (p : Nat) (key : String) (c : Nat) : Option World :=
  match NSModel.findVal p w.registry with
  | none => none
  | some ip =>
    match NSModel.findVal key ip.fieldsI with
    | some (.arrCompR cs) =>
      match NSModel.findVal c w.registry with
      | none => none
      | some ic =>
        if ic.containerI = none ∧ c ≠ p then
          some { registry := updateReg
                   (updateReg w.registry p (setFieldI ip key (.arrCompR (cs ++ [c]))))
                   c { ic with containerI := some p },
                 events := w.events ++ [⟨p, .insertedE, key, cs.length⟩] }
        else none
    | some (.arrRefR rs) =>
      match NSModel.findVal c w.registry with
      | none => none
      | some _ =>
        some { registry := updateReg w.registry p (setFieldI ip key (.arrRefR (rs ++ [c]))),
               events := w.events ++ [⟨p, .insertedE, key, rs.length⟩] }
    | _ => none

/-- `_remove_item`: remove `c` from the array field `key` of `p`.  Removing
from an array-of-component field clears the child's container.  Exactly one
`item_removed` event is fired, after the mutation. -/
def removeItem (w : World) (p : Nat) (key : String) (c : Nat) : Option World :=
  match NSModel.findVal p w.registry with
  | none => none
  | some ip =>
    match NSModel.findVal key ip.fieldsI with
    | some (.arrCompR cs) =>
      if c ∈ cs then
        some { registry := setContainer
                 (updateReg w.registry p (setFieldI ip key (.arrCompR (cs.erase c))))
                 c none,
               events := w.events ++ [⟨p, .removedE, key, cs.indexOf c⟩] }
      else none
    | some (.arrRefR rs) =>
      if c ∈ rs then
        some { registry := updateReg w.registry p (setFieldI ip key (.arrRefR (rs.erase c))),
               events := w.events ++ [⟨p, .removedE, key, rs.indexOf c⟩] }
      else none
    | _ => none

/-- Clear the container of the child previously held by a single component
field, if any. -/
def clearOld (reg : List (Nat × Inst)) (old : Option Nat) : List (Nat × Inst) :=
  match old with
  | some oc => setContainer reg oc none
  | none => reg

/-- `_set_field_value` on a single-valued component or reference field.
Setting a component field transfers ownership: the previous child's container
is cleared and the new child's container set; setting a reference field
stores the uuid only.  One `property_changed` event is fired. -/
def setSingleField (w : World) (p : Nat) (key : String) (cOpt : Option Nat) :
    Option World :=
  match NSModel.findVal p w.registry with
  | none => none
  | some ip =>
    match NSModel.findVal key ip.fieldsI with
    | some (.compR old) =>
      let reg1 := updateReg w.registry p (setFieldI ip key (.compR cOpt))
      let reg2 := clearOld reg1 old
      match cOpt with
      | none =>
        some { registry := reg2,
               events := w.events ++ [⟨p, .propertyChangedE, key, 0⟩] }
      | some c =>
        match NSModel.findVal c w.registry with
        | none => none
        | some ic =>
          if ic.containerI = none ∧ c ≠ p ∧ old ≠ some c then
            some { registry := setContainer reg2 c (some p),
                   events := w.events ++ [⟨p, .propertyChangedE, key, 0⟩] }
          else none
    | some (.refR _) =>
      some { registry := updateReg w.registry p (setFieldI ip key (.refR cOpt)),
             events := w.events ++ [⟨p, .propertyChangedE, key, 0⟩] }
    | _ => none

/-- The child uuids owned through one field value. -/
def childrenOfVal : RVal → List Nat
  | .compR (some c) => [c]
  | .arrCompR cs => cs
  | _ => []

/-- The child uuids owned through all fields of a field list. -/
def compChildrenL : List (String × RVal) → List Nat
  | [] => []
  | kv :: rest => childrenOfVal kv.2 ++ compChildrenL rest

/-- The child uuids owned by an instance through its component slots. -/
def compChildren (i : Inst) : List Nat := compChildrenL i.fieldsI

/-- `p` owns `c` through some component slot. -/
def ownsEdge (w : World) (p c : Nat) : Prop :=
  ∃ i, NSModel.findVal p w.registry = some i ∧ c ∈ compChildren i

/-- The container invariant: registry keys are unique, each instance's owned
children are pairwise distinct, ownership edges and container back-references
agree in both directions, and no instance owns itself. -/
def InvW (w : World) : Prop :=
  (w.registry.map Prod.fst).Nodup ∧
  (∀ pc ∈ w.registry, (compChildren pc.2).Nodup) ∧
  (∀ pc ∈ w.registry, ∀ c ∈ compChildren pc.2, containerOf w c = some (some pc.1)) ∧
  (∀ cc ∈ w.registry, ∀ p ∈ cc.2.containerI.toList,
    ∃ ip ∈ w.registry, ip.1 = p ∧ cc.1 ∈ compChildren ip.2) ∧
  (∀ pc ∈ w.registry, pc.1 ∉ compChildren pc.2)

/-- One mutation of the world through the public interface. -/
inductive WOp where
  | createW : String → Nat → WOp
  | appendW : Nat → String → Nat → WOp
  | removeW : Nat → String → Nat → WOp
  | setFieldW : Nat → String → Option Nat → WOp
deriving DecidableEq

/-- Dispatch one operation. -/
def wstep (schema : Schema) (w : World) : WOp → Option World
  | .createW t u => createInst schema w t u
  | .appendW p key c => appendItem w p key c
  | .removeW p key c => removeItem w p key c
  | .setFieldW p key cOpt => setSingleField w p key cOpt

/-- Run a list of operations, failing if any operation fails. -/
def runOps (schema : Schema) (w : World) : List WOp → Option World
  | [] => some w
  | op :: ops =>
    match wstep schema w op with
    | none => none
    | some w1 => runOps schema w1 ops

/-- Cumulative (item_inserted, item_removed) counters of a world. -/
def evCounters (w : World) : Nat × Nat :=
  ((w.events.filter (fun e => e.kindE == EvKind.insertedE)).length,
   (w.events.filter (fun e => e.kindE == EvKind.removedE)).length)

/-- The schema of the event/container tests: a root with one
array-of-component field and one array-of-reference field, and an item type
with a scalar field. -/
def exSchema : Schema :=
  [("root", [("components", .arrayComponentK "item"),
             ("references", .arrayReferenceK "item")]),
   ("item", [("value", .propK (.intV 0))])]

def emptyW : World := { registry := [], events := [] }

/-- Create the root and four items, then append two items as components. -/
def opsSetup : List WOp :=
  [.createW "root" 1, .createW "item" 2, .createW "item" 3,
   .createW "item" 4, .createW "item" 5,
   .appendW 1 "components" 2, .appendW 1 "components" 3]

def opsRemove : List WOp := opsSetup ++ [.removeW 1 "components" 2]

def opsRefs : List WOp :=
  opsRemove ++ [.appendW 1 "references" 4, .appendW 1 "references" 5]

def opsAll : List WOp := opsRefs ++ [.removeW 1 "references" 4]

/-- A world with a registered root and a registered free item. -/
def wEx1 : World :=
  { registry := [(1, ⟨"root", none, [("components", RVal.arrCompR []),
                                     ("references", RVal.arrRefR [])]⟩),
                 (2, ⟨"item", none, [("value", RVal.scalarR (.intV 0))]⟩)],
    events := [] }

/-- The world after appending item 2 to the root's component array. -/
def wEx2 : World :=
  { registry := [(1, ⟨"root", none, [("components", RVal.arrCompR [2]),
                                     ("references", RVal.arrRefR [])]⟩),
                 (2, ⟨"item", some 1, [("value", RVal.scalarR (.intV 0))]⟩)],
    events := [⟨1, EvKind.insertedE, "components", 0⟩] }


end HeapM



namespace NSModel

/-- C10: `connection_factory` returns a `PropertyConnection` for
"property-connection", an `IntervalListConnection` for
"interval-list-connection", and `none` (not an exception) for every
other discriminator string. -/
theorem connection_factory_dispatch :
    connection_factory "property-connection" = some ConnKind.propertyConnection ∧
    connection_factory "interval-list-connection" = some ConnKind.intervalListConnection ∧
    ∀ t : String, t ≠ "property-connection" → t ≠ "interval-list-connection" →
      connection_factory t = none := by
  refine ⟨rfl, rfl, ?_⟩
  intro t h1 h2
  simp [connection_factory, h1, h2]

/-- Witness for C10 at the concrete unknown discriminator "unknown-type". -/
theorem connection_factory_dispatch_witness :
    connection_factory "unknown-type" = none :=
  connection_factory_dispatch.2.2 "unknown-type" (by decide) (by decide)

/-- C9: on a closed connection, both propagation operations fail with an
assertion fault (for any positive evaluation fuel) rather than silently
doing nothing. -/
theorem closed_propagation_asserts :
    ∀ (f : Nat) (s : PCState) (v : Int), s.closed = true →
      setTargetFromSource (f + 1) s v = .error .assertionFailed ∧
      setSourceFromTarget (f + 1) s v = .error .assertionFailed := by
  intro f s v h
  constructor
  · simp [setTargetFromSource, h]
  · simp [setSourceFromTarget, h]

@[simp] theorem writeProp_suppress (s : PCState) (oid : Nat) (p : String) (v : Int) :
    (writeProp s oid p v).suppress = s.suppress := rfl

@[simp] theorem writeProp_closed (s : PCState) (oid : Nat) (p : String) (v : Int) :
    (writeProp s oid p v).closed = s.closed := rfl

@[simp] theorem writeProp_binding (s : PCState) (oid : Nat) (p : String) (v : Int) :
    (writeProp s oid p v).binding = s.binding := rfl

@[simp] theorem writeProp_targetListener (s : PCState) (oid : Nat) (p : String) (v : Int) :
    (writeProp s oid p v).targetListener = s.targetListener := rfl

@[simp] theorem writeProp_sourceId (s : PCState) (oid : Nat) (p : String) (v : Int) :
    (writeProp s oid p v).sourceId = s.sourceId := rfl

@[simp] theorem writeProp_targetId (s : PCState) (oid : Nat) (p : String) (v : Int) :
    (writeProp s oid p v).targetId = s.targetId := rfl

@[simp] theorem writeProp_sourceProperty (s : PCState) (oid : Nat) (p : String) (v : Int) :
    (writeProp s oid p v).sourceProperty = s.sourceProperty := rfl

@[simp] theorem writeProp_targetProperty (s : PCState) (oid : Nat) (p : String) (v : Int) :
    (writeProp s oid p v).targetProperty = s.targetProperty := rfl

@[simp] theorem writeProp_registry (s : PCState) (oid : Nat) (p : String) (v : Int) :
    (writeProp s oid p v).registry = s.registry := rfl

@[simp] theorem writeProp_connUuid (s : PCState) (oid : Nat) (p : String) (v : Int) :
    (writeProp s oid p v).connUuid = s.connUuid := rfl

theorem set_suppress_false_eq (s : PCState) (h : s.suppress = false) :
    { s with suppress := false } = s := by
  cases s
  simp_all

theorem suppress_roundtrip (s : PCState) (oid : Nat) (p : String) (v : Int)
    (h : s.suppress = false) :
    ({ writeProp { s with suppress := true } oid p v with suppress := false } : PCState)
      = writeProp s oid p v := by
  cases s
  simp_all [writeProp]

theorem suppress_roundtrip_id (s : PCState) (h : s.suppress = false) :
    ({ { s with suppress := true } with suppress := false } : PCState) = s := by
  cases s
  simp_all

/-- While `suppress` is set, `__set_target_from_source` is a no-op. -/
theorem setTargetFromSource_suppressed (f : Nat) (s : PCState) (v : Int)
    (hs : s.suppress = true) (hc : s.closed = false) :
    setTargetFromSource (f + 1) s v = .ok s := by
  simp [setTargetFromSource, hs, hc]

/-- While `suppress` is set, `__set_source_from_target` is a no-op. -/
theorem setSourceFromTarget_suppressed (f : Nat) (s : PCState) (v : Int)
    (hs : s.suppress = true) (hc : s.closed = false) :
    setSourceFromTarget (f + 1) s v = .ok s := by
  simp [setSourceFromTarget, hs, hc]

/-- While `suppress` is set, setting a property performs only the raw write:
both connection listeners decline to propagate. -/
theorem setProp_suppressed (f : Nat) (s : PCState) (oid : Nat) (p : String) (v : Int)
    (hs : s.suppress = true) (hc : s.closed = false) :
    setProp (f + 2) s oid p v = .ok (writeProp s oid p v) := by
  have hs1 : (writeProp s oid p v).suppress = true := by simpa using hs
  have hc1 : (writeProp s oid p v).closed = false := by simpa using hc
  show setProp ((f + 1) + 1) s oid p v = _
  rw [setProp]
  by_cases h1 : (writeProp s oid p v).binding ∧ oid = (writeProp s oid p v).sourceId ∧
      p = (writeProp s oid p v).sourceProperty
  · rw [if_pos h1, setTargetFromSource_suppressed f _ v hs1 hc1]
    simp only [pipe_ok]
    by_cases h2 : (writeProp s oid p v).targetListener ∧ oid = (writeProp s oid p v).targetId ∧
        p = (writeProp s oid p v).targetProperty
    · rw [if_pos h2, setSourceFromTarget_suppressed f _ v hs1 hc1]
    · rw [if_neg h2]
  · rw [if_neg h1]
    simp only [pipe_ok]
    by_cases h2 : (writeProp s oid p v).targetListener ∧ oid = (writeProp s oid p v).targetId ∧
        p = (writeProp s oid p v).targetProperty
    · rw [if_pos h2, setSourceFromTarget_suppressed f _ v hs1 hc1]
    · rw [if_neg h2]

/-- Closed form of `__set_target_from_source` in a quiescent state: exactly one
forwarded write to the target property, with `suppress` restored. -/
theorem setTargetFromSource_eval (f : Nat) (s : PCState) (v : Int)
    (hs : s.suppress = false) (hc : s.closed = false) :
    setTargetFromSource (f + 3) s v
      = .ok (writeProp s s.targetId s.targetProperty v) := by
  show setTargetFromSource ((f + 2) + 1) s v = _
  rw [setTargetFromSource]
  rw [if_neg (by simp [hc]), if_neg (by simp [hs])]
  rw [setProp_suppressed f _ _ _ _ (by simp) (by simpa using hc)]
  simp only [pipe_ok]
  exact congrArg Except.ok (suppress_roundtrip s s.targetId s.targetProperty v hs)

/-- Closed form of `__set_source_from_target` in a quiescent state: exactly one
forwarded write to the source property when a binding exists, none otherwise. -/
theorem setSourceFromTarget_eval (f : Nat) (s : PCState) (v : Int)
    (hs : s.suppress = false) (hc : s.closed = false) :
    setSourceFromTarget (f + 3) s v
      = .ok (if s.binding then writeProp s s.sourceId s.sourceProperty v else s) := by
  show setSourceFromTarget ((f + 2) + 1) s v = _
  rw [setSourceFromTarget]
  rw [if_neg (by simp [hc]), if_neg (by simp [hs])]
  by_cases hb : s.binding
  · rw [if_pos hb, setProp_suppressed f _ _ _ _ (by simp) (by simpa using hc)]
    simp only [pipe_ok]
    rw [if_pos hb]
    exact congrArg Except.ok (suppress_roundtrip s s.sourceId s.sourceProperty v hs)
  · rw [if_neg hb]
    simp only [pipe_ok]
    rw [if_neg hb]
    exact congrArg Except.ok (suppress_roundtrip_id s hs)

/-- In a quiescent (not suppressed, not closed) state, a property set with
any fuel of at least 4 evaluates to `propagateResult`: dispatch terminates. -/
theorem setProp_eval (f : Nat) (s : PCState) (oid : Nat) (p : String) (v : Int)
    (hs : s.suppress = false) (hc : s.closed = false) :
    setProp (f + 4) s oid p v = .ok (propagateResult s oid p v) := by
  have hs1 : (writeProp s oid p v).suppress = false := by simpa using hs
  have hc1 : (writeProp s oid p v).closed = false := by simpa using hc
  show setProp ((f + 3) + 1) s oid p v = _
  rw [setProp]
  simp only [propagateResult]
  by_cases h1 : (writeProp s oid p v).binding ∧ oid = (writeProp s oid p v).sourceId ∧
      p = (writeProp s oid p v).sourceProperty
  · rw [if_pos h1, setTargetFromSource_eval f _ v hs1 hc1]
    simp only [pipe_ok, if_pos h1]
    by_cases h2 : (writeProp (writeProp s oid p v) (writeProp s oid p v).targetId
        (writeProp s oid p v).targetProperty v).targetListener ∧
        oid = (writeProp (writeProp s oid p v) (writeProp s oid p v).targetId
          (writeProp s oid p v).targetProperty v).targetId ∧
        p = (writeProp (writeProp s oid p v) (writeProp s oid p v).targetId
          (writeProp s oid p v).targetProperty v).targetProperty
    · rw [if_pos h2, setSourceFromTarget_eval f _ v (by simpa using hs) (by simpa using hc),
        if_pos h2]
    · rw [if_neg h2, if_neg h2]
  · rw [if_neg h1]
    simp only [pipe_ok, if_neg h1]
    by_cases h2 : (writeProp s oid p v).targetListener ∧
        oid = (writeProp s oid p v).targetId ∧ p = (writeProp s oid p v).targetProperty
    · rw [if_pos h2, setSourceFromTarget_eval f _ v hs1 hc1, if_pos h2]
    · rw [if_neg h2, if_neg h2]

/-- C2: in a quiescent state of a property connection with a live binding
(both endpoints resolved), a property set never triggers unbounded re-entrant
propagation: the result is independent of any dispatch fuel of at least 4,
and evaluation succeeds (no error), ending after the single forwarded set
described by `propagateResult`. -/
theorem propertyConnection_propagation_terminates :
    ∀ (f : Nat) (s : PCState) (oid : Nat) (p : String) (v : Int),
      s.binding = true → s.suppress = false → s.closed = false →
      setProp (f + 4) s oid p v = setProp 4 s oid p v ∧
      setProp (f + 4) s oid p v = .ok (propagateResult s oid p v) := by
  intro f s oid p v _ hs hc
  refine ⟨?_, setProp_eval f s oid p v hs hc⟩
  rw [setProp_eval f s oid p v hs hc]
  rw [show (4 : Nat) = 0 + 4 from rfl, setProp_eval 0 s oid p v hs hc]

/-- Witness for C2 at the concrete bound state, with extra fuel 9. -/
theorem propertyConnection_propagation_terminates_witness :
    setProp 13 boundExample 1 "a" 7 = setProp 4 boundExample 1 "a" 7 ∧
    setProp 13 boundExample 1 "a" 7 = .ok (propagateResult boundExample 1 "a" 7) :=
  propertyConnection_propagation_terminates 9 boundExample 1 "a" 7
    (by decide) (by decide) (by decide)

/-- Witness for C9 at a concrete closed state. -/
theorem closed_propagation_asserts_witness :
    setTargetFromSource 1 closedExample 5 = .error .assertionFailed ∧
    setSourceFromTarget 1 closedExample 5 = .error .assertionFailed :=
  closed_propagation_asserts 0 closedExample 5 (by decide)

theorem sameFrame_rfl (s : PCState) : sameFrame s s :=
  ⟨rfl, rfl, rfl, rfl, rfl, rfl, rfl, rfl, rfl, rfl⟩

theorem sameFrame_trans {s t u : PCState} (h1 : sameFrame s t) (h2 : sameFrame t u) :
    sameFrame s u := by
  obtain ⟨a1, a2, a3, a4, a5, a6, a7, a8, a9, a10⟩ := h1
  obtain ⟨b1, b2, b3, b4, b5, b6, b7, b8, b9, b10⟩ := h2
  exact ⟨b1.trans a1, b2.trans a2, b3.trans a3, b4.trans a4, b5.trans a5,
    b6.trans a6, b7.trans a7, b8.trans a8, b9.trans a9, b10.trans a10⟩

theorem sameFrame_writeProp (s : PCState) (oid : Nat) (p : String) (v : Int) :
    sameFrame s (writeProp s oid p v) :=
  ⟨rfl, rfl, rfl, rfl, rfl, rfl, rfl, rfl, rfl, rfl⟩

/-- Pure property propagation never touches the connection's frame: the
registry, the binding and listener states, the flags and the identifiers are
unchanged by any successful `setProp`/`setTargetFromSource`/
`setSourceFromTarget` call. -/
theorem frame_all : ∀ f : Nat,
    (∀ (s : PCState) (oid : Nat) (p : String) (v : Int) (s' : PCState),
      setProp f s oid p v = .ok s' → sameFrame s s') ∧
    (∀ (s : PCState) (v : Int) (s' : PCState),
      setTargetFromSource f s v = .ok s' → sameFrame s s') ∧
    (∀ (s : PCState) (v : Int) (s' : PCState),
      setSourceFromTarget f s v = .ok s' → sameFrame s s') := by
  intro f
  induction f with
  | zero =>
    refine ⟨?_, ?_, ?_⟩
    · intro s oid p v s' h
      simp [setProp] at h
    · intro s v s' h
      simp [setTargetFromSource] at h
    · intro s v s' h
      simp [setSourceFromTarget] at h
  | succ f ih =>
    obtain ⟨ihP, ihT, ihS⟩ := ih
    refine ⟨?_, ?_, ?_⟩
    · intro s oid p v s' h
      rw [setProp] at h
      split at h
      · cases hr : setTargetFromSource f (writeProp s oid p v) v with
        | error e => rw [hr] at h; simp at h
        | ok s2 =>
          rw [hr] at h
          simp only [pipe_ok] at h
          have f1 : sameFrame s s2 :=
            sameFrame_trans (sameFrame_writeProp s oid p v) (ihT _ _ _ hr)
          split at h
          · exact sameFrame_trans f1 (ihS _ _ _ h)
          · cases h
            exact f1
      · simp only [pipe_ok] at h
        split at h
        · exact sameFrame_trans (sameFrame_writeProp s oid p v) (ihS _ _ _ h)
        · cases h
          exact sameFrame_writeProp s oid p v
    · intro s v s' h
      rw [setTargetFromSource] at h
      split at h
      · simp at h
      · split at h
        · cases h
          exact sameFrame_rfl s
        · rename_i hcl hsup
          cases hr : setProp f { s with suppress := true } s.targetId s.targetProperty v with
          | error e => rw [hr] at h; simp at h
          | ok s2 =>
            rw [hr] at h
            simp only [pipe_ok] at h
            cases h
            obtain ⟨a1, a2, a3, a4, a5, a6, a7, a8, a9, a10⟩ := ihP _ _ _ _ _ hr
            refine ⟨?_, ?_, ?_, ?_, ?_, ?_, ?_, ?_, ?_, ?_⟩ <;> simp_all
    · intro s v s' h
      rw [setSourceFromTarget] at h
      split at h
      · simp at h
      · split at h
        · cases h
          exact sameFrame_rfl s
        · rename_i hcl hsup
          split at h
          · cases hr : setProp f { s with suppress := true } s.sourceId s.sourceProperty v with
            | error e => rw [hr] at h; simp at h
            | ok s2 =>
              rw [hr] at h
              simp only [pipe_ok] at h
              cases h
              obtain ⟨a1, a2, a3, a4, a5, a6, a7, a8, a9, a10⟩ := ihP _ _ _ _ _ hr
              refine ⟨?_, ?_, ?_, ?_, ?_, ?_, ?_, ?_, ?_, ?_⟩ <;> simp_all
          · simp only [pipe_ok] at h
            cases h
            refine ⟨?_, ?_, ?_, ?_, ?_, ?_, ?_, ?_, ?_, ?_⟩ <;> simp_all

theorem configureBinding_inv (s s' : PCState) (hInv : Inv s)
    (h : configureBinding s = .ok s') : Inv s' := by
  simp only [configureBinding] at h
  split at h
  · rename_i hres
    split at h
    · simp at h
    · split at h
      · simp at h
      · rename_i v hg
        obtain ⟨_, hsid, _, htid, _, hreg, hb, htl, hsup, _⟩ := (frame_all 4).2.1 _ _ _ h
        refine ⟨?_, ?_, ?_⟩
        · rw [hsup]
          exact hInv.1
        · intro _
          rw [hreg, hsid, htid]
          exact hres
        · intro htl'
          rw [hreg, htid]
          exact hInv.2.2 (htl.symm.trans htl')
  · cases h
    exact hInv

theorem configureTarget_inv (s s' : PCState) (hInv : Inv s)
    (h : configureTarget s = .ok s') : Inv s' := by
  simp only [configureTarget] at h
  split at h
  · simp at h
  · by_cases hm : s.targetId ∈ s.registry
    · rw [if_pos hm] at h
      exact configureBinding_inv { s with targetListener := true } s'
        ⟨hInv.1, fun hb => hInv.2.1 hb, fun _ => hm⟩ h
    · rw [if_neg hm] at h
      exact configureBinding_inv _ _ hInv h

theorem registerItem_inv (s : PCState) (oid : Nat) (s' : PCState) (hInv : Inv s)
    (h : registerItem s oid = .ok s') : Inv s' := by
  have hInv1 : Inv { s with registry := oid :: s.registry } :=
    ⟨hInv.1,
     fun hb => ⟨List.mem_cons_of_mem _ (hInv.2.1 hb).1,
       List.mem_cons_of_mem _ (hInv.2.1 hb).2⟩,
     fun ht => List.mem_cons_of_mem _ (hInv.2.2 ht)⟩
  simp only [registerItem] at h
  split at h
  · cases hr : configureBinding { s with registry := oid :: s.registry } with
    | error e => rw [hr] at h; simp at h
    | ok s2 =>
      rw [hr] at h
      simp only [pipe_ok] at h
      have hInv2 := configureBinding_inv _ _ hInv1 hr
      split at h
      · exact configureTarget_inv _ _ hInv2 h
      · cases h
        exact hInv2
  · simp only [pipe_ok] at h
    split at h
    · exact configureTarget_inv _ _ hInv1 h
    · cases h
      exact hInv1

/-- Computed form of `unregisterItem`: the registry entry is erased, and the
binding and target listener are released exactly when the unregistered uuid
is one of the two endpoints. -/
theorem unregisterItem_eq (s : PCState) (oid : Nat) :
    unregisterItem s oid =
      if oid = s.sourceId ∨ oid = s.targetId then
        { s with
          registry := s.registry.erase oid,
          binding := false,
          targetListener := false }
      else { s with registry := s.registry.erase oid } := by
  unfold unregisterItem releaseBinding
  by_cases hsrc : oid = s.sourceId
  · subst hsrc
    by_cases htgt : s.sourceId = s.targetId <;> simp [htgt]
  · by_cases htgt : oid = s.targetId
    · subst htgt
      simp [hsrc]
    · simp [hsrc, htgt]

theorem unregisterItem_inv (s : PCState) (oid : Nat) (hInv : Inv s) :
    Inv (unregisterItem s oid) := by
  rw [unregisterItem_eq]
  by_cases h : oid = s.sourceId ∨ oid = s.targetId
  · rw [if_pos h]
    refine ⟨hInv.1, ?_, ?_⟩ <;> intro hx <;> simp at hx
  · rw [if_neg h]
    push_neg at h
    refine ⟨hInv.1, ?_, ?_⟩
    · intro hb
      have hmem := hInv.2.1 hb
      exact ⟨(List.mem_erase_of_ne (Ne.symm h.1)).2 hmem.1,
        (List.mem_erase_of_ne (Ne.symm h.2)).2 hmem.2⟩
    · intro ht
      exact (List.mem_erase_of_ne (Ne.symm h.2)).2 (hInv.2.2 ht)

theorem setProp_inv (f : Nat) (s : PCState) (oid : Nat) (p : String) (v : Int)
    (s' : PCState) (hInv : Inv s) (h : setProp f s oid p v = .ok s') : Inv s' := by
  obtain ⟨_, hsid, _, htid, _, hreg, hb, htl, hsup, _⟩ := (frame_all f).1 _ _ _ _ _ h
  refine ⟨hsup.trans hInv.1, ?_, ?_⟩
  · intro hb'
    rw [hreg, hsid, htid]
    exact hInv.2.1 (hb.symm.trans hb')
  · intro ht'
    rw [hreg, htid]
    exact hInv.2.2 (htl.symm.trans ht')

theorem unregister_teardown (s : PCState) (oid : Nat)
    (h : oid = s.sourceId ∨ oid = s.targetId) :
    (unregisterItem s oid).binding = false ∧
    (unregisterItem s oid).targetListener = false := by
  rw [unregisterItem_eq, if_pos h]
  exact ⟨rfl, rfl⟩

theorem register_source_establishes (s : PCState) (v : Int) (hInv : Inv s)
    (hc : s.closed = false) (hb : s.binding = false)
    (htreg : s.targetId ∈ s.registry) (hne : s.sourceId ≠ s.targetId)
    (hg : getProp s s.sourceId s.sourceProperty = some v) :
    ∃ s', registerItem s s.sourceId = .ok s' ∧ s'.binding = true := by
  have hres : (({ s with registry := s.sourceId :: s.registry } : PCState).sourceId ∈
      ({ s with registry := s.sourceId :: s.registry } : PCState).registry ∧
      ({ s with registry := s.sourceId :: s.registry } : PCState).targetId ∈
      ({ s with registry := s.sourceId :: s.registry } : PCState).registry) :=
    ⟨List.mem_cons_self _ _, List.mem_cons_of_mem _ htreg⟩
  have hcb : configureBinding { s with registry := s.sourceId :: s.registry }
      = setTargetFromSource 4
          ({ s with
             registry := s.sourceId :: s.registry,
             binding := true }) v := by
    simp only [configureBinding]
    rw [if_pos hres, if_neg (by simp [hb])]
    rw [show getProp { s with registry := s.sourceId :: s.registry }
        ({ s with registry := s.sourceId :: s.registry } : PCState).sourceId
        ({ s with registry := s.sourceId :: s.registry } : PCState).sourceProperty
        = some v from hg]
  have htfs : setTargetFromSource 4
      ({ s with
         registry := s.sourceId :: s.registry,
         binding := true }) v
      = .ok (writeProp
          ({ s with
             registry := s.sourceId :: s.registry,
             binding := true }) s.targetId s.targetProperty v) := by
    rw [show (4 : Nat) = 1 + 3 from rfl]
    exact setTargetFromSource_eval 1 _ v (by simpa using hInv.1) (by simpa using hc)
  refine ⟨writeProp
      ({ s with
         registry := s.sourceId :: s.registry,
         binding := true }) s.targetId s.targetProperty v, ?_, by simp⟩
  simp only [registerItem]
  split
  · rw [hcb, htfs]
    simp only [pipe_ok]
    rw [if_neg (by simp [hne])]
  · rename_i hfalse
    exact absurd trivial hfalse

theorem register_target_establishes (s : PCState) (v : Int) (hInv : Inv s)
    (hc : s.closed = false) (hb : s.binding = false)
    (htnreg : s.targetId ∉ s.registry) (hsreg : s.sourceId ∈ s.registry)
    (hne : s.sourceId ≠ s.targetId)
    (hg : getProp s s.sourceId s.sourceProperty = some v) :
    ∃ s', registerItem s s.targetId = .ok s' ∧ s'.binding = true ∧
      s'.targetListener = true := by
  have htl : s.targetListener = false := by
    cases hsl : s.targetListener with
    | false => rfl
    | true => exact absurd (hInv.2.2 hsl) htnreg
  have hres : (({ s with
      registry := s.targetId :: s.registry,
      targetListener := true } : PCState).sourceId ∈
      ({ s with
         registry := s.targetId :: s.registry,
         targetListener := true } : PCState).registry ∧
      ({ s with
         registry := s.targetId :: s.registry,
         targetListener := true } : PCState).targetId ∈
      ({ s with
         registry := s.targetId :: s.registry,
         targetListener := true } : PCState).registry) :=
    ⟨List.mem_cons_of_mem _ hsreg, List.mem_cons_self _ _⟩
  have hct : configureTarget { s with registry := s.targetId :: s.registry }
      = setTargetFromSource 4
          ({ s with
             registry := s.targetId :: s.registry,
             targetListener := true,
             binding := true }) v := by
    simp only [configureTarget]
    rw [if_neg (by simp [htl])]
    rw [if_pos (show ({ s with registry := s.targetId :: s.registry } : PCState).targetId ∈
        ({ s with registry := s.targetId :: s.registry } : PCState).registry from
        List.mem_cons_self _ _)]
    simp only [configureBinding]
    rw [if_pos hres, if_neg (by simp [hb])]
    rw [show getProp
        ({ s with
           registry := s.targetId :: s.registry,
           targetListener := true })
        ({ s with
           registry := s.targetId :: s.registry,
           targetListener := true } : PCState).sourceId
        ({ s with
           registry := s.targetId :: s.registry,
           targetListener := true } : PCState).sourceProperty
        = some v from hg]
  have htfs : setTargetFromSource 4
      ({ s with
         registry := s.targetId :: s.registry,
         targetListener := true,
         binding := true }) v
      = .ok (writeProp
          ({ s with
             registry := s.targetId :: s.registry,
             targetListener := true,
             binding := true }) s.targetId s.targetProperty v) := by
    rw [show (4 : Nat) = 1 + 3 from rfl]
    exact setTargetFromSource_eval 1 _ v (by simpa using hInv.1) (by simpa using hc)
  refine ⟨writeProp
      ({ s with
         registry := s.targetId :: s.registry,
         targetListener := true,
         binding := true }) s.targetId s.targetProperty v, ?_, by simp, by simp⟩
  simp only [registerItem]
  split
  · rename_i heq
    exact absurd heq.symm hne
  · simp only [pipe_ok]
    split
    · rw [hct, htfs]
    · rename_i hfalse
      exact absurd trivial hfalse

theorem findVal_setVal_ne {α β : Type} [DecidableEq α] (l : List (α × β)) (k k' : α)
    (v : β) (h : k' ≠ k) : findVal k' (setVal k v l) = findVal k' l := by
  induction l with
  | nil => simp [setVal, findVal, Ne.symm h]
  | cons kv rest ih =>
    obtain ⟨a, b⟩ := kv
    by_cases ha : a = k
    · subst ha
      simp [setVal, findVal, Ne.symm h]
    · simp [setVal, findVal, ha, ih]

theorem dormant_no_propagation (f : Nat) (s : PCState) (oid : Nat) (p : String)
    (v : Int) (hb : s.binding = false) (ht : s.targetListener = false) :
    setProp (f + 1) s oid p v = .ok (writeProp s oid p v) := by
  rw [setProp]
  rw [if_neg (by simp [hb])]
  simp only [pipe_ok]
  rw [if_neg (by simp [ht])]

/-- C1: lifecycle of the property binding.  (i) The binding invariant — the
binding exists only while both endpoints are registered, and the target
listener only while the target is registered — is preserved by every
public-interface step; (ii) unregistering either endpoint tears the binding
and the target listener down; (iii) and (iv) a later matching registration of
the missing endpoint re-establishes the binding automatically (attaching the
target listener when it is the target that registers); (v) while no binding
and no target listener exist (in particular before the target registers), a
property set propagates nothing: only the directly written object changes. -/
theorem propertyConnection_binding_lifecycle :
    (∀ (s : PCState) (op : POp) (s' : PCState), Inv s → step s op = .ok s' → Inv s') ∧
    (∀ (s : PCState) (oid : Nat), oid = s.sourceId ∨ oid = s.targetId →
      (unregisterItem s oid).binding = false ∧
      (unregisterItem s oid).targetListener = false) ∧
    (∀ (s : PCState) (v : Int), Inv s → s.closed = false → s.binding = false →
      s.targetId ∈ s.registry → s.sourceId ≠ s.targetId →
      getProp s s.sourceId s.sourceProperty = some v →
      ∃ s', registerItem s s.sourceId = .ok s' ∧ s'.binding = true) ∧
    (∀ (s : PCState) (v : Int), Inv s → s.closed = false → s.binding = false →
      s.targetId ∉ s.registry → s.sourceId ∈ s.registry → s.sourceId ≠ s.targetId →
      getProp s s.sourceId s.sourceProperty = some v →
      ∃ s', registerItem s s.targetId = .ok s' ∧ s'.binding = true ∧
        s'.targetListener = true) ∧
    (∀ (f : Nat) (s : PCState) (oid : Nat) (p : String) (v : Int),
      s.binding = false → s.targetListener = false →
      setProp (f + 1) s oid p v = .ok (writeProp s oid p v) ∧
      (∀ q : Nat, q ≠ oid →
        findVal q (writeProp s oid p v).objs = findVal q s.objs)) := by
  refine ⟨?_, ?_, ?_, ?_, ?_⟩
  · intro s op s' hInv h
    cases op with
    | registerOp oid => exact registerItem_inv _ _ _ hInv h
    | unregisterOp oid =>
      cases h
      exact unregisterItem_inv _ _ hInv
    | setOp oid p v => exact setProp_inv _ _ _ _ _ _ hInv h
  · exact unregister_teardown
  · exact register_source_establishes
  · exact register_target_establishes
  · intro f s oid p v hb ht
    refine ⟨dormant_no_propagation f s oid p v hb ht, ?_⟩
    intro q hq
    simp only [writeProp]
    exact findVal_setVal_ne _ _ _ _ hq

/-- Witness for C1 at concrete connection states. -/
theorem propertyConnection_binding_lifecycle_witness :
    Inv (unregisterItem boundExample 1) ∧
    ((unregisterItem boundExample 2).binding = false ∧
      (unregisterItem boundExample 2).targetListener = false) ∧
    (∃ s', registerItem preSourceExample 1 = .ok s' ∧ s'.binding = true) ∧
    (∃ s', registerItem dormantExample 2 = .ok s' ∧ s'.binding = true ∧
      s'.targetListener = true) ∧
    (setProp 1 dormantExample 2 "b" 5 = .ok (writeProp dormantExample 2 "b" 5) ∧
      findVal 1 (writeProp dormantExample 2 "b" 5).objs = findVal 1 dormantExample.objs) :=
  ⟨propertyConnection_binding_lifecycle.1 boundExample (.unregisterOp 1)
      (unregisterItem boundExample 1) (by unfold Inv; decide) rfl,
   propertyConnection_binding_lifecycle.2.1 boundExample 2 (Or.inr (by decide)),
   propertyConnection_binding_lifecycle.2.2.1 preSourceExample 10 (by unfold Inv; decide)
      (by decide) (by decide) (by decide) (by decide) (by decide),
   propertyConnection_binding_lifecycle.2.2.2.1 dormantExample 10 (by unfold Inv; decide)
      (by decide) (by decide) (by decide) (by decide) (by decide) (by decide),
   (propertyConnection_binding_lifecycle.2.2.2.2 0 dormantExample 2 "b" 5 (by decide)
      (by decide)).1,
   (propertyConnection_binding_lifecycle.2.2.2.2 0 dormantExample 2 "b" 5 (by decide)
      (by decide)).2 1 (by decide)⟩

theorem configureBinding_connUuid (s s' : PCState) (h : configureBinding s = .ok s') :
    s'.connUuid = s.connUuid := by
  simp only [configureBinding] at h
  split at h
  · split at h
    · simp at h
    · split at h
      · simp at h
      · exact ((frame_all 4).2.1 _ _ _ h).1
  · cases h
    rfl

theorem configureTarget_connUuid (s s' : PCState) (h : configureTarget s = .ok s') :
    s'.connUuid = s.connUuid := by
  simp only [configureTarget] at h
  split at h
  · simp at h
  · by_cases hm : s.targetId ∈ s.registry
    · rw [if_pos hm] at h
      exact configureBinding_connUuid { s with targetListener := true } s' h
    · rw [if_neg hm] at h
      exact configureBinding_connUuid _ _ h

theorem registerItem_connUuid (s : PCState) (oid : Nat) (s' : PCState)
    (h : registerItem s oid = .ok s') : s'.connUuid = s.connUuid := by
  simp only [registerItem] at h
  split at h
  · cases hr : configureBinding { s with registry := oid :: s.registry } with
    | error e => rw [hr] at h; simp at h
    | ok s2 =>
      rw [hr] at h
      simp only [pipe_ok] at h
      have h2 := configureBinding_connUuid _ _ hr
      split at h
      · exact (configureTarget_connUuid _ _ h).trans h2
      · cases h
        exact h2
  · simp only [pipe_ok] at h
    split at h
    · exact configureTarget_connUuid { s with registry := oid :: s.registry } s' h
    · cases h
      rfl

/-- C8: the uuid of a persistent object is fixed at creation and no
public-interface operation reassigns it; in particular `Connection.clone`
yields a connection carrying the original's uuid (the deep copy's fresh uuid
`u` is overwritten), and registration, unregistration and property
propagation never change the connection's uuid. -/
theorem uuid_assigned_once :
    (∀ (s : PCState) (u : Nat), (cloneWith s u).connUuid = s.connUuid) ∧
    (∀ (s : PCState) (op : POp) (s' : PCState), step s op = .ok s' →
      s'.connUuid = s.connUuid) := by
  constructor
  · intro s u
    rfl
  · intro s op s' h
    cases op with
    | registerOp oid => exact registerItem_connUuid _ _ _ h
    | unregisterOp oid =>
      cases h
      rw [unregisterItem_eq]
      split <;> rfl
    | setOp oid p v => exact ((frame_all 4).1 _ _ _ _ _ h).1

/-- Witness for C8: cloning with fresh uuid 99 keeps uuid 0, and a concrete
unregistration step keeps the connection's uuid. -/
theorem uuid_assigned_once_witness :
    (cloneWith boundExample 99).connUuid = boundExample.connUuid ∧
    (unregisterItem boundExample 1).connUuid = boundExample.connUuid :=
  ⟨uuid_assigned_once.1 boundExample 99,
   uuid_assigned_once.2 boundExample (.unregisterOp 1)
     (unregisterItem boundExample 1) rfl⟩

/-- C5 (code bug): an `IntervalListConnection` that has accumulated an
interval-mutated listener (here for graphic 3) keeps that listener open after
`close()`: the class has no close override, the inherited close cannot reach
the locally held listener list, and the `unregistered` handler only closes
the item-inserted/item-removed listeners. -/
theorem intervalListConnection_close_leaks_listeners :
    (reattach ilcExample).intervalListeners = [3] ∧
    (closeILC (reattach ilcExample)).closedI = true ∧
    (closeILC (reattach ilcExample)).intervalListeners = [3] := by
  decide

/-- C6: a recomputation assigns the target's `interval_descriptors` only when
the recomputed list differs by value from the target's current list — when
the lists are value-equal the target property and its notification count are
untouched, and when they differ the property becomes the recomputed list with
exactly one change notification; recomputation is what runs on graphic
insertion, graphic removal, and tracked-interval mutation. -/
theorem intervalListConnection_recompute_short_circuit :
    (∀ s : ILCState, s.targetResolved = true →
      computeDescriptors s = s.target.intervalDescriptors →
      (reattach s).target = s.target) ∧
    (∀ s : ILCState, s.targetResolved = true →
      computeDescriptors s ≠ s.target.intervalDescriptors →
      (reattach s).target.intervalDescriptors = computeDescriptors s ∧
      (reattach s).target.setCount = s.target.setCount + 1) ∧
    (∀ (s : ILCState) (g : Graphic), s.itemListeners = true →
      s.targetResolved = true →
      insertGraphic s g = reattach { s with graphics := s.graphics ++ [g] }) ∧
    (∀ (s : ILCState) (gid : Nat), s.itemListeners = true →
      s.targetResolved = true →
      removeGraphic s gid
        = reattach { s with graphics := s.graphics.filter (fun g => g.gid ≠ gid) }) ∧
    (∀ (s : ILCState) (gid : Nat) (iv : Int × Int), gid ∈ s.intervalListeners →
      mutateGraphic s gid iv = reattach { s with graphics := s.graphics.map (fun g => if g.gid = gid then { g with interval := iv } else g) }) := by
  refine ⟨?_, ?_, ?_, ?_, ?_⟩
  · intro s ht h
    simp only [reattach]
    rw [if_pos ht, if_neg (not_not_intro h.symm)]
  · intro s ht h
    simp only [reattach]
    rw [if_pos ht, if_pos (Ne.symm h)]
    exact ⟨rfl, rfl⟩
  · intro s g hi ht
    simp only [insertGraphic]
    split
    · rfl
    · rename_i hf
      exact absurd ⟨hi, ht⟩ hf
  · intro s gid hi ht
    simp only [removeGraphic]
    split
    · rfl
    · rename_i hf
      exact absurd ⟨hi, ht⟩ hf
  · intro s gid iv hm
    simp only [mutateGraphic]
    split
    · rfl
    · rename_i hf
      exact absurd hm hf

/-- Witness for C6 at concrete interval-list connection states. -/
theorem intervalListConnection_recompute_short_circuit_witness :
    (reattach ilcSteadyExample).target = ilcSteadyExample.target ∧
    ((reattach ilcExample).target.intervalDescriptors = computeDescriptors ilcExample ∧
      (reattach ilcExample).target.setCount = ilcExample.target.setCount + 1) ∧
    insertGraphic ilcExample ⟨4, false, (0, 0)⟩
      = reattach { ilcExample with graphics := ilcExample.graphics ++ [⟨4, false, (0, 0)⟩] } ∧
    removeGraphic ilcExample 3
      = reattach { ilcExample with
          graphics := ilcExample.graphics.filter (fun g => g.gid ≠ 3) } ∧
    mutateGraphic ilcSteadyExample 3 (2, 3)
      = reattach { ilcSteadyExample with graphics := ilcSteadyExample.graphics.map (fun g => if g.gid = 3 then { g with interval := (2, 3) } else g) } :=
  ⟨intervalListConnection_recompute_short_circuit.1 ilcSteadyExample
      (by decide) (by decide),
   intervalListConnection_recompute_short_circuit.2.1 ilcExample
      (by decide) (by decide),
   intervalListConnection_recompute_short_circuit.2.2.1 ilcExample ⟨4, false, (0, 0)⟩
      (by decide) (by decide),
   intervalListConnection_recompute_short_circuit.2.2.2.1 ilcExample 3
      (by decide) (by decide),
   intervalListConnection_recompute_short_circuit.2.2.2.2 ilcSteadyExample 3 (2, 3)
      (by decide)⟩

end NSModel

namespace SchemaM

mutual

theorem readEnt_writeEnt (schema : Schema) :
    ∀ e : Ent, wfEnt schema e = true → readEnt schema (writeEnt e) = some e
  | .mk t u m fs, h => by
    simp only [writeEnt, readEnt]
    simp only [wfEnt] at h
    cases hl : List.lookup t schema with
    | none =>
      rw [hl] at h
      simp at h
    | some ftypes =>
      rw [hl] at h
      simp only [hl]
      rw [readFields_writeFields schema ftypes fs h]

theorem readFields_writeFields (schema : Schema) :
    ∀ (specs : List (String × FieldKind)) (fs : List (String × FVal)),
      wfFields schema specs fs = true →
      readFields schema specs (writeFields fs) = some fs
  | [], [], _ => by simp only [writeFields, readFields]
  | (k, fk) :: specs, [], h => by simp [wfFields] at h
  | [], (k', fv) :: fs, h => by simp [wfFields] at h
  | (k, fk) :: specs, (k', fv) :: fs, h => by
    simp only [wfFields, Bool.and_eq_true, decide_eq_true_eq] at h
    obtain ⟨⟨hk, hfv⟩, hrest⟩ := h
    subst hk
    simp only [writeFields, readFields, if_pos]
    rw [readFVal_writeFVal schema fk fv hfv, readFields_writeFields schema specs fs hrest]

theorem readFVal_writeFVal (schema : Schema) :
    ∀ (fk : FieldKind) (fv : FVal), wfFVal schema fk fv = true →
      readFVal schema fk (writeFVal fv) = some fv
  | .propK d, .scalarF sv, _ => by simp [writeFVal, readFVal]
  | .referenceK t, .refF r, _ => by simp [writeFVal, readFVal]
  | .componentK t, .compF none, _ => by simp [writeFVal, readFVal]
  | .componentK t, .compF (some e), h => by
    simp only [wfFVal] at h
    simp only [writeFVal, readFVal]
    rw [readEnt_writeEnt schema e h]
  | .arrayComponentK t, .arrCompF es, h => by
    simp only [wfFVal] at h
    simp only [writeFVal, readFVal]
    rw [readEnts_writeEnts schema es h]
  | .arrayReferenceK t, .arrRefF rs, _ => by simp [writeFVal, readFVal]
  | .propK d, .refF r, h => by simp [wfFVal] at h
  | .propK d, .compF c, h => by simp [wfFVal] at h
  | .propK d, .arrCompF es, h => by simp [wfFVal] at h
  | .propK d, .arrRefF rs, h => by simp [wfFVal] at h
  | .referenceK t, .scalarF sv, h => by simp [wfFVal] at h
  | .referenceK t, .compF c, h => by simp [wfFVal] at h
  | .referenceK t, .arrCompF es, h => by simp [wfFVal] at h
  | .referenceK t, .arrRefF rs, h => by simp [wfFVal] at h
  | .componentK t, .scalarF sv, h => by simp [wfFVal] at h
  | .componentK t, .refF r, h => by simp [wfFVal] at h
  | .componentK t, .arrCompF es, h => by simp [wfFVal] at h
  | .componentK t, .arrRefF rs, h => by simp [wfFVal] at h
  | .arrayComponentK t, .scalarF sv, h => by simp [wfFVal] at h
  | .arrayComponentK t, .refF r, h => by simp [wfFVal] at h
  | .arrayComponentK t, .compF c, h => by simp [wfFVal] at h
  | .arrayComponentK t, .arrRefF rs, h => by simp [wfFVal] at h
  | .arrayReferenceK t, .scalarF sv, h => by simp [wfFVal] at h
  | .arrayReferenceK t, .refF r, h => by simp [wfFVal] at h
  | .arrayReferenceK t, .compF c, h => by simp [wfFVal] at h
  | .arrayReferenceK t, .arrCompF es, h => by simp [wfFVal] at h

theorem readEnts_writeEnts (schema : Schema) :
    ∀ es : List Ent, wfEnts schema es = true →
      readEnts schema (writeEnts es) = some es
  | [], _ => by simp only [writeEnts, readEnts]
  | e :: es, h => by
    simp only [wfEnts, Bool.and_eq_true] at h
    simp only [writeEnts, readEnts]
    rw [readEnt_writeEnt schema e h.1, readEnts_writeEnts schema es h.2]

end

/-- C3: for every entity well-formed against its schema, `write_to_dict`
followed by `read_from_dict`/`build` reproduces the entity exactly: the same
uuid, the same value for every scalar field, and a structurally identical
tree of component sub-objects, with reference fields carried through the
serialized form as specifiers only (`writeFVal` maps a reference to its
specifier, never to the referenced object's content). -/
theorem entity_write_read_roundtrip :
    ∀ (schema : Schema) (e : Ent), wfEnt schema e = true →
      ∃ e', readEnt schema (writeEnt e) = some e' ∧ e' = e ∧
        e'.uuidE = e.uuidE ∧ e'.fields = e.fields :=
  fun schema e h => ⟨e, readEnt_writeEnt schema e h, rfl, rfl, rfl⟩

/-- Witness for C3 at a concrete schema and a concrete entity exercising every
field kind (scalar, reference, component, array-of-component,
array-of-reference). -/
theorem entity_write_read_roundtrip_witness :
    ∃ e', readEnt exampleSchema (writeEnt exampleEntity) = some e' ∧
      e' = exampleEntity ∧ e'.uuidE = exampleEntity.uuidE ∧
      e'.fields = exampleEntity.fields :=
  entity_write_read_roundtrip exampleSchema exampleEntity (by decide)

end SchemaM

namespace HeapM

open SchemaM
theorem findVal_mem {α β : Type} [DecidableEq α] {l : List (α × β)} {k : α} {v : β}
    (h : NSModel.findVal k l = some v) : (k, v) ∈ l := by
  induction l with
  | nil => simp [NSModel.findVal] at h
  | cons kv rest ih =>
    obtain ⟨a, b⟩ := kv
    rw [NSModel.findVal] at h
    by_cases ha : a = k
    · rw [if_pos ha] at h
      cases h
      subst ha
      exact List.mem_cons_self _ _
    · rw [if_neg ha] at h
      exact List.mem_cons_of_mem _ (ih h)

theorem findVal_isSome_of_mem {α β : Type} [DecidableEq α] {l : List (α × β)} {k : α}
    {v : β} (h : (k, v) ∈ l) : (NSModel.findVal k l).isSome := by
  induction l with
  | nil => simp at h
  | cons kv rest ih =>
    obtain ⟨a, b⟩ := kv
    rw [NSModel.findVal]
    by_cases ha : a = k
    · rw [if_pos ha]
      rfl
    · rw [if_neg ha]
      rcases List.mem_cons.mp h with heq | hmem
      · cases heq
        exact absurd rfl ha
      · exact ih hmem

theorem findVal_of_mem_nodup {l : List (Nat × Inst)} {k : Nat} {v : Inst}
    (hnd : (l.map Prod.fst).Nodup) (h : (k, v) ∈ l) :
    NSModel.findVal k l = some v := by
  induction l with
  | nil => simp at h
  | cons kv rest ih =>
    obtain ⟨a, b⟩ := kv
    simp only [List.map_cons, List.nodup_cons] at hnd
    rw [NSModel.findVal]
    rcases List.mem_cons.mp h with heq | hmem
    · cases heq
      rw [if_pos rfl]
    · have hak : a ≠ k := by
        intro he
        subst he
        exact hnd.1 (List.mem_map_of_mem Prod.fst hmem)
      rw [if_neg hak]
      exact ih hnd.2 hmem

theorem keys_updateReg (reg : List (Nat × Inst)) (k : Nat) (i : Inst) :
    (updateReg reg k i).map Prod.fst = reg.map Prod.fst := by
  induction reg with
  | nil => rfl
  | cons kv rest ih =>
    simp only [updateReg, List.map_cons] at ih ⊢
    by_cases h : kv.1 = k
    · simp [h, ih]
    · simp [h, ih]

theorem findVal_updateReg_ne (reg : List (Nat × Inst)) (k k' : Nat) (i : Inst)
    (h : k' ≠ k) :
    NSModel.findVal k' (updateReg reg k i) = NSModel.findVal k' reg := by
  induction reg with
  | nil => rfl
  | cons kv rest ih =>
    obtain ⟨a, b⟩ := kv
    simp only [updateReg, List.map_cons] at ih ⊢
    by_cases hk : a = k
    · subst hk
      rw [if_pos rfl]
      simp only [NSModel.findVal]
      rw [if_neg (Ne.symm h), if_neg (Ne.symm h)]
      exact ih
    · rw [if_neg hk]
      simp only [NSModel.findVal]
      by_cases ha : a = k'
      · rw [if_pos ha, if_pos ha]
      · rw [if_neg ha, if_neg ha]
        exact ih

theorem findVal_updateReg_self (reg : List (Nat × Inst)) (k : Nat) (i j : Inst)
    (h : NSModel.findVal k reg = some j) :
    NSModel.findVal k (updateReg reg k i) = some i := by
  induction reg with
  | nil => simp [NSModel.findVal] at h
  | cons kv rest ih =>
    obtain ⟨a, b⟩ := kv
    rw [NSModel.findVal] at h
    simp only [updateReg, List.map_cons]
    by_cases ha : a = k
    · rw [if_pos ha, NSModel.findVal, if_pos rfl]
    · rw [if_neg ha] at h
      rw [if_neg ha, NSModel.findVal, if_neg ha]
      exact ih h

theorem mem_updateReg {reg : List (Nat × Inst)} {k : Nat} {i : Inst} {x : Nat × Inst}
    (h : x ∈ updateReg reg k i) : x = (k, i) ∨ (x ∈ reg ∧ x.1 ≠ k) := by
  simp only [updateReg, List.mem_map] at h
  obtain ⟨y, hy, hxy⟩ := h
  by_cases hk : y.1 = k
  · rw [if_pos hk] at hxy
    exact Or.inl hxy.symm
  · rw [if_neg hk] at hxy
    subst hxy
    exact Or.inr ⟨hy, hk⟩

theorem mem_updateReg_of_ne {reg : List (Nat × Inst)} {k : Nat} {i : Inst}
    {x : Nat × Inst} (hx : x ∈ reg) (hne : x.1 ≠ k) : x ∈ updateReg reg k i := by
  simp only [updateReg, List.mem_map]
  exact ⟨x, hx, by rw [if_neg hne]⟩

theorem mem_updateReg_self {reg : List (Nat × Inst)} {k : Nat} {i j : Inst}
    (h : (k, j) ∈ reg) : (k, i) ∈ updateReg reg k i := by
  simp only [updateReg, List.mem_map]
  exact ⟨(k, j), h, by simp⟩

theorem compChildrenL_append (l1 l2 : List (String × RVal)) :
    compChildrenL (l1 ++ l2) = compChildrenL l1 ++ compChildrenL l2 := by
  induction l1 with
  | nil => rfl
  | cons kv rest ih =>
    simp only [List.cons_append, compChildrenL, List.append_eq, ih, List.append_assoc]

theorem setVal_split {l : List (String × RVal)} {key : String} {v0 : RVal}
    (h : NSModel.findVal key l = some v0) :
    ∃ l1 l2, l = l1 ++ (key, v0) :: l2 ∧
      ∀ v : RVal, NSModel.setVal key v l = l1 ++ (key, v) :: l2 := by
  induction l with
  | nil => simp [NSModel.findVal] at h
  | cons kv rest ih =>
    obtain ⟨a, b⟩ := kv
    rw [NSModel.findVal] at h
    by_cases ha : a = key
    · rw [if_pos ha] at h
      cases h
      subst ha
      exact ⟨[], rest, by simp, fun v => by simp [NSModel.setVal]⟩
    · rw [if_neg ha] at h
      obtain ⟨l1, l2, heq, hset⟩ := ih h
      refine ⟨(a, b) :: l1, l2, by simp [heq], fun v => ?_⟩
      rw [NSModel.setVal, if_neg ha, hset v]
      rfl

/-- Children of a field list before and after a `setVal` on a present key:
the contribution of that slot is replaced, everything else stays. -/
theorem compChildrenL_setVal {l : List (String × RVal)} {key : String} {v0 : RVal}
    (h : NSModel.findVal key l = some v0) (v : RVal) :
    ∃ A B, compChildrenL l = A ++ (childrenOfVal v0 ++ B) ∧
      compChildrenL (NSModel.setVal key v l) = A ++ (childrenOfVal v ++ B) := by
  obtain ⟨l1, l2, heq, hset⟩ := setVal_split h
  refine ⟨compChildrenL l1, compChildrenL l2, ?_, ?_⟩
  · rw [heq, compChildrenL_append, compChildrenL]
  · rw [hset v, compChildrenL_append, compChildrenL]

theorem compChildren_default (ftypes : List (String × FieldKind)) :
    compChildrenL (defaultFields ftypes) = [] := by
  induction ftypes with
  | nil => rfl
  | cons kv rest ih =>
    obtain ⟨k, fk⟩ := kv
    cases fk <;> simp [defaultFields, compChildrenL, defaultVal, childrenOfVal, ih]

/-- Under the invariant, an object whose container is empty sits in nobody's
component slots. -/
theorem not_owned_of_container_none {w : World} (hInv : InvW w) {c : Nat} {ic : Inst}
    (hc : NSModel.findVal c w.registry = some ic) (hnone : ic.containerI = none) :
    ∀ x ∈ w.registry, c ∉ compChildren x.2 := by
  intro x hx hmem
  have h3 := hInv.2.2.1 x hx c hmem
  rw [containerOf, hc] at h3
  simp [hnone] at h3

theorem notin_keys_of_findVal_none {l : List (Nat × Inst)} {k : Nat}
    (h : NSModel.findVal k l = none) : k ∉ l.map Prod.fst := by
  intro hmem
  obtain ⟨x, hx, hfst⟩ := List.mem_map.mp hmem
  obtain ⟨a, i⟩ := x
  cases hfst
  have h2 := findVal_isSome_of_mem hx
  rw [h] at h2
  simp at h2

theorem createInst_inv {schema : Schema} {w w' : World} {t : String} {u : Nat}
    (hInv : InvW w) (h : createInst schema w t u = some w') : InvW w' := by
  simp only [createInst] at h
  split at h
  · simp at h
  · rename_i ftypes hft
    split at h
    · simp at h
    · rename_i hnone
      cases h
      obtain ⟨h1, h2, h3, h4, h5⟩ := hInv
      have hcher : compChildren (⟨t, none, defaultFields ftypes⟩ : Inst) = [] :=
        compChildren_default ftypes
      refine ⟨?_, ?_, ?_, ?_, ?_⟩
      · exact List.nodup_cons.mpr ⟨notin_keys_of_findVal_none hnone, h1⟩
      · intro pc hpc
        rcases List.mem_cons.mp hpc with heq | hmem
        · subst heq
          rw [hcher]
          exact List.nodup_nil
        · exact h2 pc hmem
      · intro pc hpc c hc
        rcases List.mem_cons.mp hpc with heq | hmem
        · subst heq
          rw [hcher] at hc
          simp at hc
        · have horig := h3 pc hmem c hc
          have hcu : c ≠ u := by
            intro he
            subst he
            rw [containerOf, hnone] at horig
            simp at horig
          rw [containerOf] at horig ⊢
          show ((NSModel.findVal c ((u, ⟨t, none, defaultFields ftypes⟩) :: w.registry)).map
            (fun i => i.containerI)) = _
          rw [NSModel.findVal, if_neg (Ne.symm hcu)]
          exact horig
      · intro cc hcc q hq
        rcases List.mem_cons.mp hcc with heq | hmem
        · subst heq
          simp at hq
        · obtain ⟨ip, hip, hfst, hchild⟩ := h4 cc hmem q hq
          exact ⟨ip, List.mem_cons_of_mem _ hip, hfst, hchild⟩
      · intro pc hpc
        rcases List.mem_cons.mp hpc with heq | hmem
        · subst heq
          rw [hcher]
          simp
        · exact h5 pc hmem

theorem containerOf_mk (reg : List (Nat × Inst)) (ev : List Ev) (d : Nat) :
    containerOf ⟨reg, ev⟩ d = (NSModel.findVal d reg).map (fun i => i.containerI) := rfl

theorem appendItem_inv {w w' : World} {p c : Nat} {key : String}
    (hInv : InvW w) (h : appendItem w p key c = some w') : InvW w' := by
  have hInv' := hInv
  obtain ⟨h1, h2, h3, h4, h5⟩ := hInv
  simp only [appendItem] at h
  split at h
  · simp at h
  · rename_i ip hp
    split at h
    · -- array-of-component branch
      rename_i cs hf
      split at h
      · simp at h
      · rename_i ic hc
        split at h
        · rename_i hguard
          obtain ⟨hcnone, hcp⟩ := hguard
          cases h
          obtain ⟨A, B, hAB, hABs⟩ := compChildrenL_setVal hf (.arrCompR (cs ++ [c]))
          have hchild_ip : compChildren ip = A ++ (cs ++ B) := by
            rw [compChildren, hAB]
            simp [childrenOfVal]
          have hchild_ip' :
              compChildren (setFieldI ip key (.arrCompR (cs ++ [c]))) =
                A ++ ((cs ++ [c]) ++ B) := by
            rw [compChildren, setFieldI]
            show compChildrenL (NSModel.setVal key (.arrCompR (cs ++ [c])) ip.fieldsI) = _
            rw [hABs]
            simp [childrenOfVal]
          have hcnm : ∀ x ∈ w.registry, c ∉ compChildren x.2 :=
            not_owned_of_container_none hInv' hc hcnone
          have hFc1 : NSModel.findVal c
              (updateReg w.registry p (setFieldI ip key (.arrCompR (cs ++ [c]))))
              = some ic := by
            rw [findVal_updateReg_ne _ _ _ _ hcp]
            exact hc
          have hFc : NSModel.findVal c
              (updateReg (updateReg w.registry p (setFieldI ip key (.arrCompR (cs ++ [c]))))
                c { ic with containerI := some p })
              = some { ic with containerI := some p } :=
            findVal_updateReg_self _ _ _ _ hFc1
          have hFp : NSModel.findVal p
              (updateReg (updateReg w.registry p (setFieldI ip key (.arrCompR (cs ++ [c]))))
                c { ic with containerI := some p })
              = some (setFieldI ip key (.arrCompR (cs ++ [c]))) := by
            rw [findVal_updateReg_ne _ _ _ _ (Ne.symm hcp)]
            exact findVal_updateReg_self _ _ _ _ hp
          have hFd : ∀ d, d ≠ c → d ≠ p → NSModel.findVal d
              (updateReg (updateReg w.registry p (setFieldI ip key (.arrCompR (cs ++ [c]))))
                c { ic with containerI := some p })
              = NSModel.findVal d w.registry := by
            intro d hdc hdp
            rw [findVal_updateReg_ne _ _ _ _ hdc, findVal_updateReg_ne _ _ _ _ hdp]
          have hco : ∀ d, d ≠ c →
              (NSModel.findVal d
                (updateReg (updateReg w.registry p (setFieldI ip key (.arrCompR (cs ++ [c]))))
                  c { ic with containerI := some p })).map (fun i => i.containerI)
              = containerOf w d := by
            intro d hdc
            by_cases hdp : d = p
            · rw [hdp, hFp, containerOf, hp]
              rfl
            · rw [hFd d hdc hdp, containerOf]
          have hlift : ∀ d, d ∈ A ++ (cs ++ B) → d ∈ A ++ ((cs ++ [c]) ++ B) := by
            intro d hd
            rcases List.mem_append.mp hd with hA | hrest
            · exact List.mem_append.mpr (Or.inl hA)
            · rcases List.mem_append.mp hrest with hcs | hB
              · refine List.mem_append.mpr (Or.inr ?_)
                refine List.mem_append.mpr (Or.inl ?_)
                exact List.mem_append.mpr (Or.inl hcs)
              · refine List.mem_append.mpr (Or.inr ?_)
                exact List.mem_append.mpr (Or.inr hB)
          have hdrop : ∀ d, d ≠ c → d ∈ A ++ ((cs ++ [c]) ++ B) → d ∈ A ++ (cs ++ B) := by
            intro d hdc hd
            rcases List.mem_append.mp hd with hA | hrest
            · exact List.mem_append.mpr (Or.inl hA)
            · rcases List.mem_append.mp hrest with hcs | hB
              · rcases List.mem_append.mp hcs with hcs' | hc1
                · exact List.mem_append.mpr (Or.inr (List.mem_append.mpr (Or.inl hcs')))
                · simp at hc1
                  exact absurd hc1 hdc
              · exact List.mem_append.mpr (Or.inr (List.mem_append.mpr (Or.inr hB)))
          have hedge : ∀ z q : Nat,
              (∃ iq0, (q, iq0) ∈ w.registry ∧ z ∈ compChildren iq0) →
              ∃ ipx ∈ updateReg
                  (updateReg w.registry p (setFieldI ip key (.arrCompR (cs ++ [c]))))
                  c { ic with containerI := some p },
                ipx.1 = q ∧ z ∈ compChildren ipx.2 := by
            intro z q hex
            obtain ⟨iq0, hiq0, hz⟩ := hex
            by_cases hqp : q = p
            · have hb : iq0 = ip := by
                have hfv := findVal_of_mem_nodup h1 hiq0
                rw [hqp, hp] at hfv
                exact (Option.some.inj hfv).symm
              refine ⟨(p, setFieldI ip key (.arrCompR (cs ++ [c]))), ?_, hqp.symm, ?_⟩
              · exact mem_updateReg_of_ne (mem_updateReg_self (findVal_mem hp))
                  (Ne.symm hcp)
              · rw [hchild_ip']
                rw [hb, hchild_ip] at hz
                exact hlift z hz
            · by_cases hqc : q = c
              · have hb : iq0 = ic := by
                  have hfv := findVal_of_mem_nodup h1 hiq0
                  rw [hqc, hc] at hfv
                  exact (Option.some.inj hfv).symm
                refine ⟨(c, { ic with containerI := some p }), ?_, hqc.symm, ?_⟩
                · exact mem_updateReg_self (mem_updateReg_of_ne (findVal_mem hc) hcp)
                · rw [hb] at hz
                  exact hz
              · refine ⟨(q, iq0), ?_, rfl, hz⟩
                exact mem_updateReg_of_ne (mem_updateReg_of_ne hiq0 hqp) hqc
          refine ⟨?_, ?_, ?_, ?_, ?_⟩
          · show ((updateReg (updateReg w.registry p _) c _).map Prod.fst).Nodup
            rw [keys_updateReg, keys_updateReg]
            exact h1
          · intro pc hpc
            rcases mem_updateReg hpc with heq | ⟨hpc1, hne_c⟩
            · rw [heq]
              exact h2 (c, ic) (findVal_mem hc)
            · rcases mem_updateReg hpc1 with heq | ⟨hpc0, hne_p⟩
              · rw [heq]
                show (compChildren (setFieldI ip key (.arrCompR (cs ++ [c])))).Nodup
                rw [hchild_ip']
                have hnd0 : (A ++ (cs ++ B)).Nodup := by
                  rw [← hchild_ip]
                  exact h2 (p, ip) (findVal_mem hp)
                have hcnotin : c ∉ A ++ (cs ++ B) := by
                  rw [← hchild_ip]
                  exact hcnm (p, ip) (findVal_mem hp)
                have he1 : A ++ ((cs ++ [c]) ++ B) = (A ++ cs) ++ (c :: B) := by simp
                have hperm : (A ++ ((cs ++ [c]) ++ B)).Perm (c :: (A ++ (cs ++ B))) := by
                  rw [he1]
                  have h2p := @List.perm_middle Nat c (A ++ cs) B
                  simpa using h2p
                exact hperm.symm.nodup (List.nodup_cons.mpr ⟨hcnotin, hnd0⟩)
              · exact h2 pc hpc0
          · intro pc hpc d hd
            rcases mem_updateReg hpc with heq | ⟨hpc1, hne_c⟩
            · rw [heq] at hd ⊢
              have hdc : d ≠ c := fun he => hcnm (c, ic) (findVal_mem hc) (he ▸ hd)
              rw [containerOf_mk, hco d hdc]
              exact h3 (c, ic) (findVal_mem hc) d hd
            · rcases mem_updateReg hpc1 with heq | ⟨hpc0, hne_p⟩
              · rw [heq] at hd ⊢
                rw [containerOf_mk]
                by_cases hdc : d = c
                · rw [hdc, hFc]
                  show some (some p) = _
                  rfl
                · rw [hco d hdc]
                  have hd1 : d ∈ A ++ ((cs ++ [c]) ++ B) := by
                    show d ∈ A ++ ((cs ++ [c]) ++ B)
                    rw [← hchild_ip']
                    exact hd
                  have hd0 : d ∈ compChildren ip := by
                    rw [hchild_ip]
                    exact hdrop d hdc hd1
                  exact h3 (p, ip) (findVal_mem hp) d hd0
              · have hdc : d ≠ c := fun he => hcnm pc hpc0 (he ▸ hd)
                rw [containerOf_mk, hco d hdc]
                exact h3 pc hpc0 d hd
          · intro cc hcc q hq
            rcases mem_updateReg hcc with heq | ⟨hcc1, hne_c⟩
            · rw [heq] at hq ⊢
              have hqp : q = p := by simpa using hq
              refine ⟨(p, setFieldI ip key (.arrCompR (cs ++ [c]))), ?_, hqp.symm, ?_⟩
              · exact mem_updateReg_of_ne (mem_updateReg_self (findVal_mem hp))
                  (Ne.symm hcp)
              · rw [hchild_ip']
                simp
            · rcases mem_updateReg hcc1 with heq | ⟨hcc0, hne_p⟩
              · rw [heq] at hq ⊢
                have hq' : ip.containerI = some q := by simpa using hq
                obtain ⟨iqpair, hiqm, hiqfst, hiqchild⟩ :=
                  h4 (p, ip) (findVal_mem hp) q (by simp [hq'])
                refine hedge p q ⟨iqpair.2, ?_, hiqchild⟩
                rw [← hiqfst]
                exact hiqm
              · have hq' : cc.2.containerI = some q := by simpa using hq
                obtain ⟨iqpair, hiqm, hiqfst, hiqchild⟩ := h4 cc hcc0 q (by simp [hq'])
                refine hedge cc.1 q ⟨iqpair.2, ?_, hiqchild⟩
                rw [← hiqfst]
                exact hiqm
          · intro pc hpc
            rcases mem_updateReg hpc with heq | ⟨hpc1, hne_c⟩
            · rw [heq]
              exact hcnm (c, ic) (findVal_mem hc)
            · rcases mem_updateReg hpc1 with heq | ⟨hpc0, hne_p⟩
              · rw [heq]
                show p ∉ compChildren (setFieldI ip key (.arrCompR (cs ++ [c])))
                rw [hchild_ip']
                intro hmem
                have hpc' : p ≠ c := Ne.symm hcp
                have hmem0 : p ∈ A ++ (cs ++ B) := hdrop p hpc' hmem
                refine h5 (p, ip) (findVal_mem hp) ?_
                rw [hchild_ip]
                exact hmem0
              · exact h5 pc hpc0
        · simp at h
    · -- array-of-reference branch
      rename_i rs hf
      split at h
      · simp at h
      · rename_i ic hc
        cases h
        obtain ⟨A, B, hAB, hABs⟩ := compChildrenL_setVal hf (.arrRefR (rs ++ [c]))
        have hchild_eq : compChildren (setFieldI ip key (.arrRefR (rs ++ [c])))
            = compChildren ip := by
          rw [compChildren, compChildren, setFieldI]
          show compChildrenL (NSModel.setVal key (.arrRefR (rs ++ [c])) ip.fieldsI) = _
          rw [hABs, hAB]
          simp [childrenOfVal]
        have hco : ∀ d, (NSModel.findVal d
            (updateReg w.registry p (setFieldI ip key (.arrRefR (rs ++ [c]))))).map
              (fun i => i.containerI)
            = containerOf w d := by
          intro d
          by_cases hdp : d = p
          · rw [hdp, findVal_updateReg_self _ _ _ _ hp, containerOf, hp]
            rfl
          · rw [findVal_updateReg_ne _ _ _ _ hdp, containerOf]
        have hedge : ∀ z q : Nat,
            (∃ iq0, (q, iq0) ∈ w.registry ∧ z ∈ compChildren iq0) →
            ∃ ipx ∈ updateReg w.registry p (setFieldI ip key (.arrRefR (rs ++ [c]))),
              ipx.1 = q ∧ z ∈ compChildren ipx.2 := by
          intro z q hex
          obtain ⟨iq0, hiq0, hz⟩ := hex
          by_cases hqp : q = p
          · have hb : iq0 = ip := by
              have hfv := findVal_of_mem_nodup h1 hiq0
              rw [hqp, hp] at hfv
              exact (Option.some.inj hfv).symm
            refine ⟨(p, setFieldI ip key (.arrRefR (rs ++ [c]))),
              mem_updateReg_self (findVal_mem hp), hqp.symm, ?_⟩
            rw [hchild_eq]
            rw [hb] at hz
            exact hz
          · exact ⟨(q, iq0), mem_updateReg_of_ne hiq0 hqp, rfl, hz⟩
        refine ⟨?_, ?_, ?_, ?_, ?_⟩
        · show ((updateReg w.registry p _).map Prod.fst).Nodup
          rw [keys_updateReg]
          exact h1
        · intro pc hpc
          rcases mem_updateReg hpc with heq | ⟨hpc0, _⟩
          · rw [heq]
            show (compChildren (setFieldI ip key (.arrRefR (rs ++ [c])))).Nodup
            rw [hchild_eq]
            exact h2 (p, ip) (findVal_mem hp)
          · exact h2 pc hpc0
        · intro pc hpc d hd
          rcases mem_updateReg hpc with heq | ⟨hpc0, _⟩
          · rw [heq] at hd ⊢
            have hd0 : d ∈ compChildren ip := by
              rw [← hchild_eq]
              exact hd
            rw [containerOf_mk, hco d]
            exact h3 (p, ip) (findVal_mem hp) d hd0
          · rw [containerOf_mk, hco d]
            exact h3 pc hpc0 d hd
        · intro cc hcc q hq
          rcases mem_updateReg hcc with heq | ⟨hcc0, _⟩
          · rw [heq] at hq ⊢
            have hq' : ip.containerI = some q := by simpa using hq
            obtain ⟨iqpair, hiqm, hiqfst, hiqchild⟩ :=
              h4 (p, ip) (findVal_mem hp) q (by simp [hq'])
            refine hedge p q ⟨iqpair.2, ?_, hiqchild⟩
            rw [← hiqfst]
            exact hiqm
          · have hq' : cc.2.containerI = some q := by simpa using hq
            obtain ⟨iqpair, hiqm, hiqfst, hiqchild⟩ := h4 cc hcc0 q (by simp [hq'])
            refine hedge cc.1 q ⟨iqpair.2, ?_, hiqchild⟩
            rw [← hiqfst]
            exact hiqm
        · intro pc hpc
          rcases mem_updateReg hpc with heq | ⟨hpc0, _⟩
          · rw [heq]
            show p ∉ compChildren (setFieldI ip key (.arrRefR (rs ++ [c])))
            rw [hchild_eq]
            exact h5 (p, ip) (findVal_mem hp)
          · exact h5 pc hpc0
    · simp at h

theorem setContainer_eq {reg : List (Nat × Inst)} {c : Nat} {ic : Inst}
    (h : NSModel.findVal c reg = some ic) (v : Option Nat) :
    setContainer reg c v = updateReg reg c { ic with containerI := v } := by
  simp only [setContainer, h]

theorem removeItem_inv {w w' : World} {p c : Nat} {key : String}
    (hInv : InvW w) (h : removeItem w p key c = some w') : InvW w' := by
  obtain ⟨h1, h2, h3, h4, h5⟩ := hInv
  simp only [removeItem] at h
  split at h
  · simp at h
  · rename_i ip hp
    split at h
    · -- array-of-component branch
      rename_i cs hf
      split at h
      · rename_i hcmem
        cases h
        obtain ⟨A, B, hAB, hABs⟩ := compChildrenL_setVal hf (.arrCompR (cs.erase c))
        have hchild_ip : compChildren ip = A ++ (cs ++ B) := by
          rw [compChildren, hAB]
          simp [childrenOfVal]
        have hchild_ip' :
            compChildren (setFieldI ip key (.arrCompR (cs.erase c))) =
              A ++ (cs.erase c ++ B) := by
          rw [compChildren, setFieldI]
          show compChildrenL (NSModel.setVal key (.arrCompR (cs.erase c)) ip.fieldsI) = _
          rw [hABs]
          simp [childrenOfVal]
        have hcchild : c ∈ compChildren ip := by
          rw [hchild_ip]
          exact List.mem_append.mpr (Or.inr (List.mem_append.mpr (Or.inl hcmem)))
        have hcp : c ≠ p := by
          intro he
          exact h5 (p, ip) (findVal_mem hp) (he ▸ hcchild)
        have hndip : (A ++ (cs ++ B)).Nodup := by
          rw [← hchild_ip]
          exact h2 (p, ip) (findVal_mem hp)
        have hndA := (List.nodup_append.mp hndip).1
        have hndcsB := (List.nodup_append.mp hndip).2.1
        have hdisjA := (List.nodup_append.mp hndip).2.2
        have hndcs := (List.nodup_append.mp hndcsB).1
        have hndB := (List.nodup_append.mp hndcsB).2.1
        have hdisjcs := (List.nodup_append.mp hndcsB).2.2
        have hcco := h3 (p, ip) (findVal_mem hp) c hcchild
        obtain ⟨ic, hcfv, hicc⟩ : ∃ ic, NSModel.findVal c w.registry = some ic ∧
            ic.containerI = some p := by
          rw [containerOf] at hcco
          cases hcfv : NSModel.findVal c w.registry with
          | none => rw [hcfv] at hcco; simp at hcco
          | some ic =>
            rw [hcfv] at hcco
            simp only [Option.map_some] at hcco
            exact ⟨ic, rfl, Option.some.inj hcco⟩
        have hFc1 : NSModel.findVal c
            (updateReg w.registry p (setFieldI ip key (.arrCompR (cs.erase c))))
            = some ic := by
          rw [findVal_updateReg_ne _ _ _ _ hcp]
          exact hcfv
        rw [setContainer_eq hFc1] at *
        have hFc : NSModel.findVal c
            (updateReg (updateReg w.registry p (setFieldI ip key (.arrCompR (cs.erase c))))
              c { ic with containerI := none })
            = some { ic with containerI := none } :=
          findVal_updateReg_self _ _ _ _ hFc1
        have hFp : NSModel.findVal p
            (updateReg (updateReg w.registry p (setFieldI ip key (.arrCompR (cs.erase c))))
              c { ic with containerI := none })
            = some (setFieldI ip key (.arrCompR (cs.erase c))) := by
          rw [findVal_updateReg_ne _ _ _ _ (Ne.symm hcp)]
          exact findVal_updateReg_self _ _ _ _ hp
        have hco : ∀ d, d ≠ c →
            (NSModel.findVal d
              (updateReg (updateReg w.registry p (setFieldI ip key (.arrCompR (cs.erase c))))
                c { ic with containerI := none })).map (fun i => i.containerI)
            = containerOf w d := by
          intro d hdc
          by_cases hdp : d = p
          · rw [hdp, hFp, containerOf, hp]
            rfl
          · rw [findVal_updateReg_ne _ _ _ _ hdc, findVal_updateReg_ne _ _ _ _ hdp,
              containerOf]
        have hcnotin' : c ∉ A ++ (cs.erase c ++ B) := by
          intro hmem
          rcases List.mem_append.mp hmem with hA | hrest
          · exact (List.disjoint_right.mp hdisjA
              (List.mem_append.mpr (Or.inl hcmem))) hA
          · rcases List.mem_append.mp hrest with hcs | hB
            · exact ((hndcs.mem_erase_iff).mp hcs).1 rfl
            · exact (List.disjoint_left.mp hdisjcs hcmem) hB
        have hdrop : ∀ d, d ≠ c → d ∈ A ++ (cs ++ B) → d ∈ A ++ (cs.erase c ++ B) := by
          intro d hdc hd
          rcases List.mem_append.mp hd with hA | hrest
          · exact List.mem_append.mpr (Or.inl hA)
          · rcases List.mem_append.mp hrest with hcs | hB
            · refine List.mem_append.mpr (Or.inr (List.mem_append.mpr (Or.inl ?_)))
              exact (hndcs.mem_erase_iff).mpr ⟨hdc, hcs⟩
            · exact List.mem_append.mpr (Or.inr (List.mem_append.mpr (Or.inr hB)))
        have hlift : ∀ d, d ∈ A ++ (cs.erase c ++ B) → d ∈ A ++ (cs ++ B) := by
          intro d hd
          rcases List.mem_append.mp hd with hA | hrest
          · exact List.mem_append.mpr (Or.inl hA)
          · rcases List.mem_append.mp hrest with hcs | hB
            · refine List.mem_append.mpr (Or.inr (List.mem_append.mpr (Or.inl ?_)))
              exact List.mem_of_mem_erase hcs
            · exact List.mem_append.mpr (Or.inr (List.mem_append.mpr (Or.inr hB)))
        have hedge : ∀ z q : Nat, z ≠ c →
            (∃ iq0, (q, iq0) ∈ w.registry ∧ z ∈ compChildren iq0) →
            ∃ ipx ∈ updateReg
                (updateReg w.registry p (setFieldI ip key (.arrCompR (cs.erase c))))
                c { ic with containerI := none },
              ipx.1 = q ∧ z ∈ compChildren ipx.2 := by
          intro z q hzc hex
          obtain ⟨iq0, hiq0, hz⟩ := hex
          by_cases hqp : q = p
          · have hb : iq0 = ip := by
              have hfv := findVal_of_mem_nodup h1 hiq0
              rw [hqp, hp] at hfv
              exact (Option.some.inj hfv).symm
            refine ⟨(p, setFieldI ip key (.arrCompR (cs.erase c))), ?_, hqp.symm, ?_⟩
            · exact mem_updateReg_of_ne (mem_updateReg_self (findVal_mem hp))
                (Ne.symm hcp)
            · rw [hchild_ip']
              rw [hb, hchild_ip] at hz
              exact hdrop z hzc hz
          · by_cases hqc : q = c
            · have hb : iq0 = ic := by
                have hfv := findVal_of_mem_nodup h1 hiq0
                rw [hqc, hcfv] at hfv
                exact (Option.some.inj hfv).symm
              refine ⟨(c, { ic with containerI := none }), ?_, hqc.symm, ?_⟩
              · exact mem_updateReg_self (mem_updateReg_of_ne (findVal_mem hcfv) hcp)
              · rw [hb] at hz
                exact hz
            · refine ⟨(q, iq0), ?_, rfl, hz⟩
              exact mem_updateReg_of_ne (mem_updateReg_of_ne hiq0 hqp) hqc
        refine ⟨?_, ?_, ?_, ?_, ?_⟩
        · show ((updateReg (updateReg w.registry p _) c _).map Prod.fst).Nodup
          rw [keys_updateReg, keys_updateReg]
          exact h1
        · intro pc hpc
          rcases mem_updateReg hpc with heq | ⟨hpc1, hne_c⟩
          · rw [heq]
            exact h2 (c, ic) (findVal_mem hcfv)
          · rcases mem_updateReg hpc1 with heq | ⟨hpc0, hne_p⟩
            · rw [heq]
              show (compChildren (setFieldI ip key (.arrCompR (cs.erase c)))).Nodup
              rw [hchild_ip']
              have hsub : (A ++ (cs.erase c ++ B)).Sublist (A ++ (cs ++ B)) :=
                (List.Sublist.refl A).append
                  (((cs.erase_sublist c)).append (List.Sublist.refl B))
              exact hsub.nodup hndip
            · exact h2 pc hpc0
        · intro pc hpc d hd
          rcases mem_updateReg hpc with heq | ⟨hpc1, hne_c⟩
          · rw [heq] at hd ⊢
            have hdc : d ≠ c := by
              intro he
              exact h5 (c, ic) (findVal_mem hcfv) (he ▸ hd)
            rw [containerOf_mk, hco d hdc]
            exact h3 (c, ic) (findVal_mem hcfv) d hd
          · rcases mem_updateReg hpc1 with heq | ⟨hpc0, hne_p⟩
            · rw [heq] at hd ⊢
              have hd1 : d ∈ A ++ (cs.erase c ++ B) := by
                show d ∈ A ++ (cs.erase c ++ B)
                rw [← hchild_ip']
                exact hd
              have hdc : d ≠ c := fun he => hcnotin' (he ▸ hd1)
              rw [containerOf_mk, hco d hdc]
              have hd0 : d ∈ compChildren ip := by
                rw [hchild_ip]
                exact hlift d hd1
              exact h3 (p, ip) (findVal_mem hp) d hd0
            · have hdc : d ≠ c := by
                intro he
                have hx := h3 pc hpc0 d hd
                rw [he, containerOf, hcfv] at hx
                simp [hicc] at hx
                exact hne_p hx.symm
              rw [containerOf_mk, hco d hdc]
              exact h3 pc hpc0 d hd
        · intro cc hcc q hq
          rcases mem_updateReg hcc with heq | ⟨hcc1, hne_c⟩
          · rw [heq] at hq
            simp at hq
          · rcases mem_updateReg hcc1 with heq | ⟨hcc0, hne_p⟩
            · rw [heq] at hq ⊢
              have hq' : ip.containerI = some q := by simpa using hq
              obtain ⟨iqpair, hiqm, hiqfst, hiqchild⟩ :=
                h4 (p, ip) (findVal_mem hp) q (by simp [hq'])
              refine hedge p q (Ne.symm hcp) ⟨iqpair.2, ?_, hiqchild⟩
              rw [← hiqfst]
              exact hiqm
            · have hq' : cc.2.containerI = some q := by simpa using hq
              obtain ⟨iqpair, hiqm, hiqfst, hiqchild⟩ := h4 cc hcc0 q (by simp [hq'])
              refine hedge cc.1 q hne_c ⟨iqpair.2, ?_, hiqchild⟩
              rw [← hiqfst]
              exact hiqm
        · intro pc hpc
          rcases mem_updateReg hpc with heq | ⟨hpc1, hne_c⟩
          · rw [heq]
            exact h5 (c, ic) (findVal_mem hcfv)
          · rcases mem_updateReg hpc1 with heq | ⟨hpc0, hne_p⟩
            · rw [heq]
              show p ∉ compChildren (setFieldI ip key (.arrCompR (cs.erase c)))
              rw [hchild_ip']
              intro hmem
              refine h5 (p, ip) (findVal_mem hp) ?_
              rw [hchild_ip]
              exact hlift p hmem
            · exact h5 pc hpc0
      · simp at h
    · -- array-of-reference branch
      rename_i rs hf
      split at h
      · rename_i hcmem
        cases h
        obtain ⟨A, B, hAB, hABs⟩ := compChildrenL_setVal hf (.arrRefR (rs.erase c))
        have hchild_eq : compChildren (setFieldI ip key (.arrRefR (rs.erase c)))
            = compChildren ip := by
          rw [compChildren, compChildren, setFieldI]
          show compChildrenL (NSModel.setVal key (.arrRefR (rs.erase c)) ip.fieldsI) = _
          rw [hABs, hAB]
          simp [childrenOfVal]
        have hco : ∀ d, (NSModel.findVal d
            (updateReg w.registry p (setFieldI ip key (.arrRefR (rs.erase c))))).map
              (fun i => i.containerI)
            = containerOf w d := by
          intro d
          by_cases hdp : d = p
          · rw [hdp, findVal_updateReg_self _ _ _ _ hp, containerOf, hp]
            rfl
          · rw [findVal_updateReg_ne _ _ _ _ hdp, containerOf]
        have hedge : ∀ z q : Nat,
            (∃ iq0, (q, iq0) ∈ w.registry ∧ z ∈ compChildren iq0) →
            ∃ ipx ∈ updateReg w.registry p (setFieldI ip key (.arrRefR (rs.erase c))),
              ipx.1 = q ∧ z ∈ compChildren ipx.2 := by
          intro z q hex
          obtain ⟨iq0, hiq0, hz⟩ := hex
          by_cases hqp : q = p
          · have hb : iq0 = ip := by
              have hfv := findVal_of_mem_nodup h1 hiq0
              rw [hqp, hp] at hfv
              exact (Option.some.inj hfv).symm
            refine ⟨(p, setFieldI ip key (.arrRefR (rs.erase c))),
              mem_updateReg_self (findVal_mem hp), hqp.symm, ?_⟩
            rw [hchild_eq]
            rw [hb] at hz
            exact hz
          · exact ⟨(q, iq0), mem_updateReg_of_ne hiq0 hqp, rfl, hz⟩
        refine ⟨?_, ?_, ?_, ?_, ?_⟩
        · show ((updateReg w.registry p _).map Prod.fst).Nodup
          rw [keys_updateReg]
          exact h1
        · intro pc hpc
          rcases mem_updateReg hpc with heq | ⟨hpc0, _⟩
          · rw [heq]
            show (compChildren (setFieldI ip key (.arrRefR (rs.erase c)))).Nodup
            rw [hchild_eq]
            exact h2 (p, ip) (findVal_mem hp)
          · exact h2 pc hpc0
        · intro pc hpc d hd
          rcases mem_updateReg hpc with heq | ⟨hpc0, _⟩
          · rw [heq] at hd ⊢
            have hd0 : d ∈ compChildren ip := by
              rw [← hchild_eq]
              exact hd
            rw [containerOf_mk, hco d]
            exact h3 (p, ip) (findVal_mem hp) d hd0
          · rw [containerOf_mk, hco d]
            exact h3 pc hpc0 d hd
        · intro cc hcc q hq
          rcases mem_updateReg hcc with heq | ⟨hcc0, _⟩
          · rw [heq] at hq ⊢
            have hq' : ip.containerI = some q := by simpa using hq
            obtain ⟨iqpair, hiqm, hiqfst, hiqchild⟩ :=
              h4 (p, ip) (findVal_mem hp) q (by simp [hq'])
            refine hedge p q ⟨iqpair.2, ?_, hiqchild⟩
            rw [← hiqfst]
            exact hiqm
          · have hq' : cc.2.containerI = some q := by simpa using hq
            obtain ⟨iqpair, hiqm, hiqfst, hiqchild⟩ := h4 cc hcc0 q (by simp [hq'])
            refine hedge cc.1 q ⟨iqpair.2, ?_, hiqchild⟩
            rw [← hiqfst]
            exact hiqm
        · intro pc hpc
          rcases mem_updateReg hpc with heq | ⟨hpc0, _⟩
          · rw [heq]
            show p ∉ compChildren (setFieldI ip key (.arrRefR (rs.erase c)))
            rw [hchild_eq]
            exact h5 (p, ip) (findVal_mem hp)
          · exact h5 pc hpc0
      · simp at h
    · simp at h

/-- Replacing one instance in the registry by another with the same component
children and the same container preserves the world invariant. -/
theorem updateReg_keep_inv {w : World} {p : Nat} {ip ip' : Inst} {evs : List Ev}
    (hInv : InvW w) (hp : NSModel.findVal p w.registry = some ip)
    (hchild : compChildren ip' = compChildren ip)
    (hcont : ip'.containerI = ip.containerI) :
    InvW { registry := updateReg w.registry p ip', events := evs } := by
  obtain ⟨h1, h2, h3, h4, h5⟩ := hInv
  have hco : ∀ d, (NSModel.findVal d (updateReg w.registry p ip')).map
      (fun i => i.containerI) = containerOf w d := by
    intro d
    by_cases hdp : d = p
    · rw [hdp, findVal_updateReg_self _ _ _ _ hp, containerOf, hp]
      simp [hcont]
    · rw [findVal_updateReg_ne _ _ _ _ hdp, containerOf]
  have hedge : ∀ z q : Nat,
      (∃ iq0, (q, iq0) ∈ w.registry ∧ z ∈ compChildren iq0) →
      ∃ ipx ∈ updateReg w.registry p ip', ipx.1 = q ∧ z ∈ compChildren ipx.2 := by
    intro z q hex
    obtain ⟨iq0, hiq0, hz⟩ := hex
    by_cases hqp : q = p
    · have hb : iq0 = ip := by
        have hfv := findVal_of_mem_nodup h1 hiq0
        rw [hqp, hp] at hfv
        exact (Option.some.inj hfv).symm
      refine ⟨(p, ip'), mem_updateReg_self (findVal_mem hp), hqp.symm, ?_⟩
      rw [hchild]
      rw [hb] at hz
      exact hz
    · exact ⟨(q, iq0), mem_updateReg_of_ne hiq0 hqp, rfl, hz⟩
  refine ⟨?_, ?_, ?_, ?_, ?_⟩
  · show ((updateReg w.registry p ip').map Prod.fst).Nodup
    rw [keys_updateReg]
    exact h1
  · intro pc hpc
    rcases mem_updateReg hpc with heq | ⟨hpc0, _⟩
    · rw [heq]
      show (compChildren ip').Nodup
      rw [hchild]
      exact h2 (p, ip) (findVal_mem hp)
    · exact h2 pc hpc0
  · intro pc hpc d hd
    rcases mem_updateReg hpc with heq | ⟨hpc0, _⟩
    · rw [heq] at hd ⊢
      have hd0 : d ∈ compChildren ip := by
        rw [← hchild]
        exact hd
      rw [containerOf_mk, hco d]
      exact h3 (p, ip) (findVal_mem hp) d hd0
    · rw [containerOf_mk, hco d]
      exact h3 pc hpc0 d hd
  · intro cc hcc q hq
    rcases mem_updateReg hcc with heq | ⟨hcc0, _⟩
    · rw [heq] at hq ⊢
      have hq' : ip.containerI = some q := by
        rw [← hcont]
        simpa using hq
      obtain ⟨iqpair, hiqm, hiqfst, hiqchild⟩ :=
        h4 (p, ip) (findVal_mem hp) q (by simp [hq'])
      refine hedge p q ⟨iqpair.2, ?_, hiqchild⟩
      rw [← hiqfst]
      exact hiqm
    · have hq' : cc.2.containerI = some q := by simpa using hq
      obtain ⟨iqpair, hiqm, hiqfst, hiqchild⟩ := h4 cc hcc0 q (by simp [hq'])
      refine hedge cc.1 q ⟨iqpair.2, ?_, hiqchild⟩
      rw [← hiqfst]
      exact hiqm
  · intro pc hpc
    rcases mem_updateReg hpc with heq | ⟨hpc0, _⟩
    · rw [heq]
      show p ∉ compChildren ip'
      rw [hchild]
      exact h5 (p, ip) (findVal_mem hp)
    · exact h5 pc hpc0

theorem setSingleField_inv {w w' : World} {p : Nat} {key : String} {cOpt : Option Nat}
    (hInv : InvW w) (h : setSingleField w p key cOpt = some w') : InvW w' := by
  have hInv' := hInv
  obtain ⟨h1, h2, h3, h4, h5⟩ := hInv
  cases cOpt with
  | none =>
    simp only [setSingleField] at h
    split at h
    · simp at h
    · rename_i ip hp
      split at h
      · -- single component field, cleared
        rename_i old hf
        cases old with
        | none =>
          simp only [clearOld] at h
          cases h
          obtain ⟨A, B, hAB, hABs⟩ := compChildrenL_setVal hf (.compR none)
          refine updateReg_keep_inv hInv' hp ?_ rfl
          rw [compChildren, compChildren, setFieldI]
          show compChildrenL (NSModel.setVal key (.compR none) ip.fieldsI) = _
          rw [hABs, hAB]
        | some oc =>
          simp only [clearOld] at h
          cases h
          obtain ⟨A, B, hAB, hABs⟩ := compChildrenL_setVal hf (.compR none)
          have hchild_ip : compChildren ip = A ++ ([oc] ++ B) := by
            rw [compChildren, hAB]
            simp [childrenOfVal]
          have hchild_ip' : compChildren (setFieldI ip key (.compR none)) = A ++ B := by
            rw [compChildren, setFieldI]
            show compChildrenL (NSModel.setVal key (.compR none) ip.fieldsI) = _
            rw [hABs]
            simp [childrenOfVal]
          have hocchild : oc ∈ compChildren ip := by
            rw [hchild_ip]
            exact List.mem_append.mpr (Or.inr (List.mem_append.mpr (Or.inl (by simp))))
          have hocp : oc ≠ p := by
            intro he
            exact h5 (p, ip) (findVal_mem hp) (he ▸ hocchild)
          have hocco := h3 (p, ip) (findVal_mem hp) oc hocchild
          obtain ⟨ioc, hocfv, hiocc⟩ : ∃ ioc, NSModel.findVal oc w.registry = some ioc ∧
              ioc.containerI = some p := by
            rw [containerOf] at hocco
            cases hocfv : NSModel.findVal oc w.registry with
            | none => rw [hocfv] at hocco; simp at hocco
            | some ioc =>
              rw [hocfv] at hocco
              simp only [Option.map_some] at hocco
              exact ⟨ioc, rfl, Option.some.inj hocco⟩
          have hFoc1 : NSModel.findVal oc
              (updateReg w.registry p (setFieldI ip key (.compR none))) = some ioc := by
            rw [findVal_updateReg_ne _ _ _ _ hocp]
            exact hocfv
          rw [setContainer_eq hFoc1]
          have hFoc : NSModel.findVal oc
              (updateReg (updateReg w.registry p (setFieldI ip key (.compR none)))
                oc { ioc with containerI := none })
              = some { ioc with containerI := none } :=
            findVal_updateReg_self _ _ _ _ hFoc1
          have hFp : NSModel.findVal p
              (updateReg (updateReg w.registry p (setFieldI ip key (.compR none)))
                oc { ioc with containerI := none })
              = some (setFieldI ip key (.compR none)) := by
            rw [findVal_updateReg_ne _ _ _ _ (Ne.symm hocp)]
            exact findVal_updateReg_self _ _ _ _ hp
          have hco : ∀ d, d ≠ oc →
              (NSModel.findVal d
                (updateReg (updateReg w.registry p (setFieldI ip key (.compR none)))
                  oc { ioc with containerI := none })).map (fun i => i.containerI)
              = containerOf w d := by
            intro d hdoc
            by_cases hdp : d = p
            · rw [hdp, hFp, containerOf, hp]
              rfl
            · rw [findVal_updateReg_ne _ _ _ _ hdoc, findVal_updateReg_ne _ _ _ _ hdp,
                containerOf]
          have hndip : (A ++ ([oc] ++ B)).Nodup := by
            rw [← hchild_ip]
            exact h2 (p, ip) (findVal_mem hp)
          have hocnotAB : oc ∉ A ++ B := by
            intro hmem
            rcases List.mem_append.mp hmem with hA | hB
            · exact (List.disjoint_right.mp (List.nodup_append.mp hndip).2.2
                (List.mem_append.mpr (Or.inl (by simp)))) hA
            · exact (List.disjoint_left.mp
                (List.nodup_append.mp (List.nodup_append.mp hndip).2.1).2.2 (by simp)) hB
          have hliftOc : ∀ d, d ∈ A ++ B → d ∈ A ++ ([oc] ++ B) := by
            intro d hd
            rcases List.mem_append.mp hd with hA | hB
            · exact List.mem_append.mpr (Or.inl hA)
            · exact List.mem_append.mpr (Or.inr (List.mem_append.mpr (Or.inr hB)))
          have hdropOc : ∀ d, d ≠ oc → d ∈ A ++ ([oc] ++ B) → d ∈ A ++ B := by
            intro d hdoc hd
            rcases List.mem_append.mp hd with hA | hrest
            · exact List.mem_append.mpr (Or.inl hA)
            · rcases List.mem_append.mp hrest with hoc | hB
              · simp at hoc
                exact absurd hoc hdoc
              · exact List.mem_append.mpr (Or.inr hB)
          have hedge : ∀ z q : Nat, z ≠ oc →
              (∃ iq0, (q, iq0) ∈ w.registry ∧ z ∈ compChildren iq0) →
              ∃ ipx ∈ updateReg (updateReg w.registry p (setFieldI ip key (.compR none)))
                  oc { ioc with containerI := none },
                ipx.1 = q ∧ z ∈ compChildren ipx.2 := by
            intro z q hzoc hex
            obtain ⟨iq0, hiq0, hz⟩ := hex
            by_cases hqp : q = p
            · have hb : iq0 = ip := by
                have hfv := findVal_of_mem_nodup h1 hiq0
                rw [hqp, hp] at hfv
                exact (Option.some.inj hfv).symm
              refine ⟨(p, setFieldI ip key (.compR none)), ?_, hqp.symm, ?_⟩
              · exact mem_updateReg_of_ne (mem_updateReg_self (findVal_mem hp))
                  (Ne.symm hocp)
              · rw [hchild_ip']
                rw [hb, hchild_ip] at hz
                exact hdropOc z hzoc hz
            · by_cases hqoc : q = oc
              · have hb : iq0 = ioc := by
                  have hfv := findVal_of_mem_nodup h1 hiq0
                  rw [hqoc, hocfv] at hfv
                  exact (Option.some.inj hfv).symm
                refine ⟨(oc, { ioc with containerI := none }), ?_, hqoc.symm, ?_⟩
                · exact mem_updateReg_self (mem_updateReg_of_ne (findVal_mem hocfv) hocp)
                · rw [hb] at hz
                  exact hz
              · refine ⟨(q, iq0), ?_, rfl, hz⟩
                exact mem_updateReg_of_ne (mem_updateReg_of_ne hiq0 hqp) hqoc
          refine ⟨?_, ?_, ?_, ?_, ?_⟩
          · show ((updateReg (updateReg w.registry p _) oc _).map Prod.fst).Nodup
            rw [keys_updateReg, keys_updateReg]
            exact h1
          · intro pc hpc
            rcases mem_updateReg hpc with heq | ⟨hpc1, hne_oc⟩
            · rw [heq]
              exact h2 (oc, ioc) (findVal_mem hocfv)
            · rcases mem_updateReg hpc1 with heq | ⟨hpc0, hne_p⟩
              · rw [heq]
                show (compChildren (setFieldI ip key (.compR none))).Nodup
                rw [hchild_ip']
                have hsub : (A ++ B).Sublist (A ++ ([oc] ++ B)) :=
                  (List.Sublist.refl A).append
                    ((List.nil_sublist [oc]).append (List.Sublist.refl B))
                exact hsub.nodup hndip
              · exact h2 pc hpc0
          · intro pc hpc d hd
            rcases mem_updateReg hpc with heq | ⟨hpc1, hne_oc⟩
            · rw [heq] at hd ⊢
              have hdoc : d ≠ oc := by
                intro he
                exact h5 (oc, ioc) (findVal_mem hocfv) (he ▸ hd)
              rw [containerOf_mk, hco d hdoc]
              exact h3 (oc, ioc) (findVal_mem hocfv) d hd
            · rcases mem_updateReg hpc1 with heq | ⟨hpc0, hne_p⟩
              · rw [heq] at hd ⊢
                have hd1 : d ∈ A ++ B := by
                  show d ∈ A ++ B
                  rw [← hchild_ip']
                  exact hd
                have hdoc : d ≠ oc := fun he => hocnotAB (he ▸ hd1)
                rw [containerOf_mk, hco d hdoc]
                have hd0 : d ∈ compChildren ip := by
                  rw [hchild_ip]
                  exact hliftOc d hd1
                exact h3 (p, ip) (findVal_mem hp) d hd0
              · have hdoc : d ≠ oc := by
                  intro he
                  have hx := h3 pc hpc0 d hd
                  rw [he, containerOf, hocfv] at hx
                  simp [hiocc] at hx
                  exact hne_p hx.symm
                rw [containerOf_mk, hco d hdoc]
                exact h3 pc hpc0 d hd
          · intro cc hcc q hq
            rcases mem_updateReg hcc with heq | ⟨hcc1, hne_oc⟩
            · rw [heq] at hq
              simp at hq
            · rcases mem_updateReg hcc1 with heq | ⟨hcc0, hne_p⟩
              · rw [heq] at hq ⊢
                have hq' : ip.containerI = some q := by simpa using hq
                obtain ⟨iqpair, hiqm, hiqfst, hiqchild⟩ :=
                  h4 (p, ip) (findVal_mem hp) q (by simp [hq'])
                refine hedge p q (Ne.symm hocp) ⟨iqpair.2, ?_, hiqchild⟩
                rw [← hiqfst]
                exact hiqm
              · have hq' : cc.2.containerI = some q := by simpa using hq
                obtain ⟨iqpair, hiqm, hiqfst, hiqchild⟩ := h4 cc hcc0 q (by simp [hq'])
                refine hedge cc.1 q hne_oc ⟨iqpair.2, ?_, hiqchild⟩
                rw [← hiqfst]
                exact hiqm
          · intro pc hpc
            rcases mem_updateReg hpc with heq | ⟨hpc1, hne_oc⟩
            · rw [heq]
              exact h5 (oc, ioc) (findVal_mem hocfv)
            · rcases mem_updateReg hpc1 with heq | ⟨hpc0, hne_p⟩
              · rw [heq]
                show p ∉ compChildren (setFieldI ip key (.compR none))
                rw [hchild_ip']
                intro hmem
                refine h5 (p, ip) (findVal_mem hp) ?_
                rw [hchild_ip]
                exact hliftOc p hmem
              · exact h5 pc hpc0
      · -- single reference field
        rename_i r hf
        cases h
        obtain ⟨A, B, hAB, hABs⟩ := compChildrenL_setVal hf (.refR none)
        refine updateReg_keep_inv hInv' hp ?_ rfl
        rw [compChildren, compChildren, setFieldI]
        show compChildrenL (NSModel.setVal key (.refR none) ip.fieldsI) = _
        rw [hABs, hAB]
        simp [childrenOfVal]
      · simp at h
  | some c =>
    simp only [setSingleField] at h
    split at h
    · simp at h
    · rename_i ip hp
      split at h
      · -- single component field, set to a new child
        rename_i old hf
        split at h
        · simp at h
        · rename_i ic hcfv
          split at h
          · rename_i hguard
            obtain ⟨hcnone, hcp, holdc⟩ := hguard
            have hcnowhere := not_owned_of_container_none hInv' hcfv hcnone
            cases old with
            | none =>
              simp only [clearOld] at h
              cases h
              obtain ⟨A, B, hAB, hABs⟩ := compChildrenL_setVal hf (.compR (some c))
              have hchild_ip : compChildren ip = A ++ B := by
                rw [compChildren, hAB]
                simp [childrenOfVal]
              have hchild_ip' :
                  compChildren (setFieldI ip key (.compR (some c))) = A ++ ([c] ++ B) := by
                rw [compChildren, setFieldI]
                show compChildrenL (NSModel.setVal key (.compR (some c)) ip.fieldsI) = _
                rw [hABs]
                simp [childrenOfVal]
              have hFc1 : NSModel.findVal c
                  (updateReg w.registry p (setFieldI ip key (.compR (some c))))
                  = some ic := by
                rw [findVal_updateReg_ne _ _ _ _ hcp]
                exact hcfv
              rw [setContainer_eq hFc1]
              have hFc : NSModel.findVal c
                  (updateReg (updateReg w.registry p (setFieldI ip key (.compR (some c))))
                    c { ic with containerI := some p })
                  = some { ic with containerI := some p } :=
                findVal_updateReg_self _ _ _ _ hFc1
              have hFp : NSModel.findVal p
                  (updateReg (updateReg w.registry p (setFieldI ip key (.compR (some c))))
                    c { ic with containerI := some p })
                  = some (setFieldI ip key (.compR (some c))) := by
                rw [findVal_updateReg_ne _ _ _ _ (Ne.symm hcp)]
                exact findVal_updateReg_self _ _ _ _ hp
              have hco : ∀ d, d ≠ c →
                  (NSModel.findVal d
                    (updateReg (updateReg w.registry p (setFieldI ip key (.compR (some c))))
                      c { ic with containerI := some p })).map (fun i => i.containerI)
                  = containerOf w d := by
                intro d hdc
                by_cases hdp : d = p
                · rw [hdp, hFp, containerOf, hp]
                  rfl
                · rw [findVal_updateReg_ne _ _ _ _ hdc, findVal_updateReg_ne _ _ _ _ hdp,
                    containerOf]
              have hndip : (A ++ B).Nodup := by
                rw [← hchild_ip]
                exact h2 (p, ip) (findVal_mem hp)
              have hcnotAB : c ∉ A ++ B := by
                intro hmem
                have hx : c ∈ compChildren ip := by
                  rw [hchild_ip]
                  exact hmem
                exact hcnowhere (p, ip) (findVal_mem hp) hx
              have hndip' : (A ++ ([c] ++ B)).Nodup := by
                have hcons : (c :: (A ++ B)).Nodup := List.nodup_cons.mpr ⟨hcnotAB, hndip⟩
                have he1 : A ++ ([c] ++ B) = A ++ c :: B := by simp
                rw [he1]
                exact (@List.perm_middle Nat c A B).symm.nodup hcons
              have hliftC : ∀ d, d ∈ A ++ B → d ∈ A ++ ([c] ++ B) := by
                intro d hd
                rcases List.mem_append.mp hd with hA | hB
                · exact List.mem_append.mpr (Or.inl hA)
                · exact List.mem_append.mpr (Or.inr (List.mem_append.mpr (Or.inr hB)))
              have hdropC : ∀ d, d ≠ c → d ∈ A ++ ([c] ++ B) → d ∈ A ++ B := by
                intro d hdc hd
                rcases List.mem_append.mp hd with hA | hrest
                · exact List.mem_append.mpr (Or.inl hA)
                · rcases List.mem_append.mp hrest with hcm | hB
                  · simp at hcm
                    exact absurd hcm hdc
                  · exact List.mem_append.mpr (Or.inr hB)
              have hcchild' : c ∈ A ++ ([c] ++ B) :=
                List.mem_append.mpr (Or.inr (List.mem_append.mpr (Or.inl (by simp))))
              have hedge : ∀ z q : Nat,
                  (∃ iq0, (q, iq0) ∈ w.registry ∧ z ∈ compChildren iq0) →
                  ∃ ipx ∈ updateReg
                      (updateReg w.registry p (setFieldI ip key (.compR (some c))))
                      c { ic with containerI := some p },
                    ipx.1 = q ∧ z ∈ compChildren ipx.2 := by
                intro z q hex
                obtain ⟨iq0, hiq0, hz⟩ := hex
                by_cases hqp : q = p
                · have hb : iq0 = ip := by
                    have hfv := findVal_of_mem_nodup h1 hiq0
                    rw [hqp, hp] at hfv
                    exact (Option.some.inj hfv).symm
                  refine ⟨(p, setFieldI ip key (.compR (some c))), ?_, hqp.symm, ?_⟩
                  · exact mem_updateReg_of_ne (mem_updateReg_self (findVal_mem hp))
                      (Ne.symm hcp)
                  · rw [hchild_ip']
                    rw [hb, hchild_ip] at hz
                    exact hliftC z hz
                · by_cases hqc : q = c
                  · have hb : iq0 = ic := by
                      have hfv := findVal_of_mem_nodup h1 hiq0
                      rw [hqc, hcfv] at hfv
                      exact (Option.some.inj hfv).symm
                    refine ⟨(c, { ic with containerI := some p }), ?_, hqc.symm, ?_⟩
                    · exact mem_updateReg_self (mem_updateReg_of_ne (findVal_mem hcfv) hcp)
                    · rw [hb] at hz
                      exact hz
                  · refine ⟨(q, iq0), ?_, rfl, hz⟩
                    exact mem_updateReg_of_ne (mem_updateReg_of_ne hiq0 hqp) hqc
              refine ⟨?_, ?_, ?_, ?_, ?_⟩
              · show ((updateReg (updateReg w.registry p _) c _).map Prod.fst).Nodup
                rw [keys_updateReg, keys_updateReg]
                exact h1
              · intro pc hpc
                rcases mem_updateReg hpc with heq | ⟨hpc1, hne_c⟩
                · rw [heq]
                  exact h2 (c, ic) (findVal_mem hcfv)
                · rcases mem_updateReg hpc1 with heq | ⟨hpc0, hne_p⟩
                  · rw [heq]
                    show (compChildren (setFieldI ip key (.compR (some c)))).Nodup
                    rw [hchild_ip']
                    exact hndip'
                  · exact h2 pc hpc0
              · intro pc hpc d hd
                rcases mem_updateReg hpc with heq | ⟨hpc1, hne_c⟩
                · rw [heq] at hd ⊢
                  have hdc : d ≠ c := by
                    intro he
                    exact h5 (c, ic) (findVal_mem hcfv) (he ▸ hd)
                  rw [containerOf_mk, hco d hdc]
                  exact h3 (c, ic) (findVal_mem hcfv) d hd
                · rcases mem_updateReg hpc1 with heq | ⟨hpc0, hne_p⟩
                  · rw [heq] at hd ⊢
                    have hd1 : d ∈ A ++ ([c] ++ B) := by
                      show d ∈ A ++ ([c] ++ B)
                      rw [← hchild_ip']
                      exact hd
                    by_cases hdc : d = c
                    · rw [hdc, containerOf_mk, hFc]
                      rfl
                    · have hd2 : d ∈ A ++ B := hdropC d hdc hd1
                      rw [containerOf_mk, hco d hdc]
                      have hd0 : d ∈ compChildren ip := by
                        rw [hchild_ip]
                        exact hd2
                      exact h3 (p, ip) (findVal_mem hp) d hd0
                  · have hdc : d ≠ c := by
                      intro he
                      exact hcnowhere pc hpc0 (he ▸ hd)
                    rw [containerOf_mk, hco d hdc]
                    exact h3 pc hpc0 d hd
              · intro cc hcc q hq
                rcases mem_updateReg hcc with heq | ⟨hcc1, hne_c⟩
                · rw [heq] at hq ⊢
                  have hq' : q = p := by simpa using hq
                  refine ⟨(p, setFieldI ip key (.compR (some c))), ?_, by simp [hq'], ?_⟩
                  · exact mem_updateReg_of_ne (mem_updateReg_self (findVal_mem hp))
                      (Ne.symm hcp)
                  · rw [hchild_ip']
                    exact hcchild'
                · rcases mem_updateReg hcc1 with heq | ⟨hcc0, hne_p⟩
                  · rw [heq] at hq ⊢
                    have hq' : ip.containerI = some q := by simpa using hq
                    obtain ⟨iqpair, hiqm, hiqfst, hiqchild⟩ :=
                      h4 (p, ip) (findVal_mem hp) q (by simp [hq'])
                    refine hedge p q ⟨iqpair.2, ?_, hiqchild⟩
                    rw [← hiqfst]
                    exact hiqm
                  · have hq' : cc.2.containerI = some q := by simpa using hq
                    obtain ⟨iqpair, hiqm, hiqfst, hiqchild⟩ := h4 cc hcc0 q (by simp [hq'])
                    refine hedge cc.1 q ⟨iqpair.2, ?_, hiqchild⟩
                    rw [← hiqfst]
                    exact hiqm
              · intro pc hpc
                rcases mem_updateReg hpc with heq | ⟨hpc1, hne_c⟩
                · rw [heq]
                  exact h5 (c, ic) (findVal_mem hcfv)
                · rcases mem_updateReg hpc1 with heq | ⟨hpc0, hne_p⟩
                  · rw [heq]
                    show p ∉ compChildren (setFieldI ip key (.compR (some c)))
                    rw [hchild_ip']
                    intro hmem
                    by_cases hpc2 : p = c
                    · exact hcp hpc2.symm
                    · refine h5 (p, ip) (findVal_mem hp) ?_
                      rw [hchild_ip]
                      exact hdropC p hpc2 hmem
                  · exact h5 pc hpc0
            | some oc =>
              simp only [clearOld] at h
              cases h
              have hocc : oc ≠ c := fun he => holdc (by rw [he])
              obtain ⟨A, B, hAB, hABs⟩ := compChildrenL_setVal hf (.compR (some c))
              have hchild_ip : compChildren ip = A ++ ([oc] ++ B) := by
                rw [compChildren, hAB]
                simp [childrenOfVal]
              have hchild_ip' :
                  compChildren (setFieldI ip key (.compR (some c))) = A ++ ([c] ++ B) := by
                rw [compChildren, setFieldI]
                show compChildrenL (NSModel.setVal key (.compR (some c)) ip.fieldsI) = _
                rw [hABs]
                simp [childrenOfVal]
              have hocchild : oc ∈ compChildren ip := by
                rw [hchild_ip]
                exact List.mem_append.mpr (Or.inr (List.mem_append.mpr (Or.inl (by simp))))
              have hocp : oc ≠ p := by
                intro he
                exact h5 (p, ip) (findVal_mem hp) (he ▸ hocchild)
              have hocco := h3 (p, ip) (findVal_mem hp) oc hocchild
              obtain ⟨ioc, hocfv, hiocc⟩ : ∃ ioc,
                  NSModel.findVal oc w.registry = some ioc ∧
                  ioc.containerI = some p := by
                rw [containerOf] at hocco
                cases hocfv : NSModel.findVal oc w.registry with
                | none => rw [hocfv] at hocco; simp at hocco
                | some ioc =>
                  rw [hocfv] at hocco
                  simp only [Option.map_some] at hocco
                  exact ⟨ioc, rfl, Option.some.inj hocco⟩
              have hFoc1 : NSModel.findVal oc
                  (updateReg w.registry p (setFieldI ip key (.compR (some c))))
                  = some ioc := by
                rw [findVal_updateReg_ne _ _ _ _ hocp]
                exact hocfv
              rw [setContainer_eq hFoc1]
              have hFc2 : NSModel.findVal c
                  (updateReg (updateReg w.registry p (setFieldI ip key (.compR (some c))))
                    oc { ioc with containerI := none })
                  = some ic := by
                rw [findVal_updateReg_ne _ _ _ _ (Ne.symm hocc),
                  findVal_updateReg_ne _ _ _ _ hcp]
                exact hcfv
              rw [setContainer_eq hFc2]
              have hFc : NSModel.findVal c
                  (updateReg (updateReg
                      (updateReg w.registry p (setFieldI ip key (.compR (some c))))
                      oc { ioc with containerI := none })
                    c { ic with containerI := some p })
                  = some { ic with containerI := some p } :=
                findVal_updateReg_self _ _ _ _ hFc2
              have hFoc : NSModel.findVal oc
                  (updateReg (updateReg
                      (updateReg w.registry p (setFieldI ip key (.compR (some c))))
                      oc { ioc with containerI := none })
                    c { ic with containerI := some p })
                  = some { ioc with containerI := none } := by
                rw [findVal_updateReg_ne _ _ _ _ hocc]
                exact findVal_updateReg_self _ _ _ _ hFoc1
              have hFp : NSModel.findVal p
                  (updateReg (updateReg
                      (updateReg w.registry p (setFieldI ip key (.compR (some c))))
                      oc { ioc with containerI := none })
                    c { ic with containerI := some p })
                  = some (setFieldI ip key (.compR (some c))) := by
                rw [findVal_updateReg_ne _ _ _ _ (Ne.symm hcp),
                  findVal_updateReg_ne _ _ _ _ (Ne.symm hocp)]
                exact findVal_updateReg_self _ _ _ _ hp
              have hco : ∀ d, d ≠ c → d ≠ oc →
                  (NSModel.findVal d
                    (updateReg (updateReg
                        (updateReg w.registry p (setFieldI ip key (.compR (some c))))
                        oc { ioc with containerI := none })
                      c { ic with containerI := some p })).map (fun i => i.containerI)
                  = containerOf w d := by
                intro d hdc hdoc
                by_cases hdp : d = p
                · rw [hdp, hFp, containerOf, hp]
                  rfl
                · rw [findVal_updateReg_ne _ _ _ _ hdc, findVal_updateReg_ne _ _ _ _ hdoc,
                    findVal_updateReg_ne _ _ _ _ hdp, containerOf]
              have hndip : (A ++ ([oc] ++ B)).Nodup := by
                rw [← hchild_ip]
                exact h2 (p, ip) (findVal_mem hp)
              have hocnotAB : oc ∉ A ++ B := by
                intro hmem
                rcases List.mem_append.mp hmem with hA | hB
                · exact (List.disjoint_right.mp (List.nodup_append.mp hndip).2.2
                    (List.mem_append.mpr (Or.inl (by simp)))) hA
                · exact (List.disjoint_left.mp
                    (List.nodup_append.mp (List.nodup_append.mp hndip).2.1).2.2 (by simp)) hB
              have hliftOc : ∀ d, d ∈ A ++ B → d ∈ A ++ ([oc] ++ B) := by
                intro d hd
                rcases List.mem_append.mp hd with hA | hB
                · exact List.mem_append.mpr (Or.inl hA)
                · exact List.mem_append.mpr (Or.inr (List.mem_append.mpr (Or.inr hB)))
              have hdropOc : ∀ d, d ≠ oc → d ∈ A ++ ([oc] ++ B) → d ∈ A ++ B := by
                intro d hdoc hd
                rcases List.mem_append.mp hd with hA | hrest
                · exact List.mem_append.mpr (Or.inl hA)
                · rcases List.mem_append.mp hrest with hocm | hB
                  · simp at hocm
                    exact absurd hocm hdoc
                  · exact List.mem_append.mpr (Or.inr hB)
              have hliftC : ∀ d, d ∈ A ++ B → d ∈ A ++ ([c] ++ B) := by
                intro d hd
                rcases List.mem_append.mp hd with hA | hB
                · exact List.mem_append.mpr (Or.inl hA)
                · exact List.mem_append.mpr (Or.inr (List.mem_append.mpr (Or.inr hB)))
              have hdropC : ∀ d, d ≠ c → d ∈ A ++ ([c] ++ B) → d ∈ A ++ B := by
                intro d hdc hd
                rcases List.mem_append.mp hd with hA | hrest
                · exact List.mem_append.mpr (Or.inl hA)
                · rcases List.mem_append.mp hrest with hcm | hB
                  · simp at hcm
                    exact absurd hcm hdc
                  · exact List.mem_append.mpr (Or.inr hB)
              have hcnotAB : c ∉ A ++ B := by
                intro hmem
                have hx : c ∈ compChildren ip := by
                  rw [hchild_ip]
                  exact hliftOc c hmem
                exact hcnowhere (p, ip) (findVal_mem hp) hx
              have hndip' : (A ++ ([c] ++ B)).Nodup := by
                have hndAB : (A ++ B).Nodup := by
                  have hsub : (A ++ B).Sublist (A ++ ([oc] ++ B)) :=
                    (List.Sublist.refl A).append
                      ((List.nil_sublist [oc]).append (List.Sublist.refl B))
                  exact hsub.nodup hndip
                have hcons : (c :: (A ++ B)).Nodup := List.nodup_cons.mpr ⟨hcnotAB, hndAB⟩
                have he1 : A ++ ([c] ++ B) = A ++ c :: B := by simp
                rw [he1]
                exact (@List.perm_middle Nat c A B).symm.nodup hcons
              have hcchild' : c ∈ A ++ ([c] ++ B) :=
                List.mem_append.mpr (Or.inr (List.mem_append.mpr (Or.inl (by simp))))
              have hedge : ∀ z q : Nat, z ≠ c → z ≠ oc →
                  (∃ iq0, (q, iq0) ∈ w.registry ∧ z ∈ compChildren iq0) →
                  ∃ ipx ∈ updateReg (updateReg
                      (updateReg w.registry p (setFieldI ip key (.compR (some c))))
                      oc { ioc with containerI := none })
                    c { ic with containerI := some p },
                    ipx.1 = q ∧ z ∈ compChildren ipx.2 := by
                intro z q hzc hzoc hex
                obtain ⟨iq0, hiq0, hz⟩ := hex
                by_cases hqp : q = p
                · have hb : iq0 = ip := by
                    have hfv := findVal_of_mem_nodup h1 hiq0
                    rw [hqp, hp] at hfv
                    exact (Option.some.inj hfv).symm
                  refine ⟨(p, setFieldI ip key (.compR (some c))), ?_, hqp.symm, ?_⟩
                  · exact mem_updateReg_of_ne (mem_updateReg_of_ne
                      (mem_updateReg_self (findVal_mem hp)) (Ne.symm hocp)) (Ne.symm hcp)
                  · rw [hchild_ip']
                    rw [hb, hchild_ip] at hz
                    exact hliftC z (hdropOc z hzoc hz)
                · by_cases hqoc : q = oc
                  · have hb : iq0 = ioc := by
                      have hfv := findVal_of_mem_nodup h1 hiq0
                      rw [hqoc, hocfv] at hfv
                      exact (Option.some.inj hfv).symm
                    refine ⟨(oc, { ioc with containerI := none }), ?_, hqoc.symm, ?_⟩
                    · exact mem_updateReg_of_ne (mem_updateReg_self
                        (mem_updateReg_of_ne (findVal_mem hocfv) hocp)) hocc
                    · rw [hb] at hz
                      exact hz
                  · by_cases hqc : q = c
                    · have hb : iq0 = ic := by
                        have hfv := findVal_of_mem_nodup h1 hiq0
                        rw [hqc, hcfv] at hfv
                        exact (Option.some.inj hfv).symm
                      refine ⟨(c, { ic with containerI := some p }), ?_, hqc.symm, ?_⟩
                      · exact mem_updateReg_self (mem_updateReg_of_ne
                          (mem_updateReg_of_ne (findVal_mem hcfv) hcp) (Ne.symm hocc))
                      · rw [hb] at hz
                        exact hz
                    · refine ⟨(q, iq0), ?_, rfl, hz⟩
                      exact mem_updateReg_of_ne (mem_updateReg_of_ne
                        (mem_updateReg_of_ne hiq0 hqp) hqoc) hqc
              refine ⟨?_, ?_, ?_, ?_, ?_⟩
              · show ((updateReg (updateReg (updateReg w.registry p _) oc _) c _).map
                  Prod.fst).Nodup
                rw [keys_updateReg, keys_updateReg, keys_updateReg]
                exact h1
              · intro pc hpc
                rcases mem_updateReg hpc with heq | ⟨hpc2, hne_c⟩
                · rw [heq]
                  exact h2 (c, ic) (findVal_mem hcfv)
                · rcases mem_updateReg hpc2 with heq | ⟨hpc1, hne_oc⟩
                  · rw [heq]
                    exact h2 (oc, ioc) (findVal_mem hocfv)
                  · rcases mem_updateReg hpc1 with heq | ⟨hpc0, hne_p⟩
                    · rw [heq]
                      show (compChildren (setFieldI ip key (.compR (some c)))).Nodup
                      rw [hchild_ip']
                      exact hndip'
                    · exact h2 pc hpc0
              · intro pc hpc d hd
                rcases mem_updateReg hpc with heq | ⟨hpc2, hne_c⟩
                · rw [heq] at hd ⊢
                  have hdc : d ≠ c := by
                    intro he
                    exact h5 (c, ic) (findVal_mem hcfv) (he ▸ hd)
                  have hdoc : d ≠ oc := by
                    intro he
                    have hx := h3 (c, ic) (findVal_mem hcfv) d hd
                    rw [he, containerOf, hocfv] at hx
                    simp [hiocc] at hx
                    exact hcp hx.symm
                  rw [containerOf_mk, hco d hdc hdoc]
                  exact h3 (c, ic) (findVal_mem hcfv) d hd
                · rcases mem_updateReg hpc2 with heq | ⟨hpc1, hne_oc⟩
                  · rw [heq] at hd ⊢
                    have hdoc : d ≠ oc := by
                      intro he
                      exact h5 (oc, ioc) (findVal_mem hocfv) (he ▸ hd)
                    have hdc : d ≠ c := by
                      intro he
                      have hx := h3 (oc, ioc) (findVal_mem hocfv) d hd
                      rw [he, containerOf, hcfv] at hx
                      simp [hcnone] at hx
                    rw [containerOf_mk, hco d hdc hdoc]
                    exact h3 (oc, ioc) (findVal_mem hocfv) d hd
                  · rcases mem_updateReg hpc1 with heq | ⟨hpc0, hne_p⟩
                    · rw [heq] at hd ⊢
                      have hd1 : d ∈ A ++ ([c] ++ B) := by
                        show d ∈ A ++ ([c] ++ B)
                        rw [← hchild_ip']
                        exact hd
                      by_cases hdc : d = c
                      · rw [hdc, containerOf_mk, hFc]
                        rfl
                      · have hd2 : d ∈ A ++ B := hdropC d hdc hd1
                        have hdoc : d ≠ oc := fun he => hocnotAB (he ▸ hd2)
                        rw [containerOf_mk, hco d hdc hdoc]
                        have hd0 : d ∈ compChildren ip := by
                          rw [hchild_ip]
                          exact hliftOc d hd2
                        exact h3 (p, ip) (findVal_mem hp) d hd0
                    · have hdc : d ≠ c := by
                        intro he
                        exact hcnowhere pc hpc0 (he ▸ hd)
                      have hdoc : d ≠ oc := by
                        intro he
                        have hx := h3 pc hpc0 d hd
                        rw [he, containerOf, hocfv] at hx
                        simp [hiocc] at hx
                        exact hne_p hx.symm
                      rw [containerOf_mk, hco d hdc hdoc]
                      exact h3 pc hpc0 d hd
              · intro cc hcc q hq
                rcases mem_updateReg hcc with heq | ⟨hcc2, hne_c⟩
                · rw [heq] at hq ⊢
                  have hq' : q = p := by simpa using hq
                  refine ⟨(p, setFieldI ip key (.compR (some c))), ?_, by simp [hq'], ?_⟩
                  · exact mem_updateReg_of_ne (mem_updateReg_of_ne
                      (mem_updateReg_self (findVal_mem hp)) (Ne.symm hocp)) (Ne.symm hcp)
                  · rw [hchild_ip']
                    exact hcchild'
                · rcases mem_updateReg hcc2 with heq | ⟨hcc1, hne_oc⟩
                  · rw [heq] at hq
                    simp at hq
                  · rcases mem_updateReg hcc1 with heq | ⟨hcc0, hne_p⟩
                    · rw [heq] at hq ⊢
                      have hq' : ip.containerI = some q := by simpa using hq
                      obtain ⟨iqpair, hiqm, hiqfst, hiqchild⟩ :=
                        h4 (p, ip) (findVal_mem hp) q (by simp [hq'])
                      refine hedge p q (Ne.symm hcp) (Ne.symm hocp)
                        ⟨iqpair.2, ?_, hiqchild⟩
                      rw [← hiqfst]
                      exact hiqm
                    · have hq' : cc.2.containerI = some q := by simpa using hq
                      obtain ⟨iqpair, hiqm, hiqfst, hiqchild⟩ :=
                        h4 cc hcc0 q (by simp [hq'])
                      refine hedge cc.1 q hne_c hne_oc ⟨iqpair.2, ?_, hiqchild⟩
                      rw [← hiqfst]
                      exact hiqm
              · intro pc hpc
                rcases mem_updateReg hpc with heq | ⟨hpc2, hne_c⟩
                · rw [heq]
                  exact h5 (c, ic) (findVal_mem hcfv)
                · rcases mem_updateReg hpc2 with heq | ⟨hpc1, hne_oc⟩
                  · rw [heq]
                    exact h5 (oc, ioc) (findVal_mem hocfv)
                  · rcases mem_updateReg hpc1 with heq | ⟨hpc0, hne_p⟩
                    · rw [heq]
                      show p ∉ compChildren (setFieldI ip key (.compR (some c)))
                      rw [hchild_ip']
                      intro hmem
                      by_cases hpc3 : p = c
                      · exact hcp hpc3.symm
                      · refine h5 (p, ip) (findVal_mem hp) ?_
                        rw [hchild_ip]
                        exact hliftOc p (hdropC p hpc3 hmem)
                    · exact h5 pc hpc0
          · simp at h
      · -- single reference field
        rename_i r hf
        cases h
        obtain ⟨A, B, hAB, hABs⟩ := compChildrenL_setVal hf (.refR (some c))
        refine updateReg_keep_inv hInv' hp ?_ rfl
        rw [compChildren, compChildren, setFieldI]
        show compChildrenL (NSModel.setVal key (.refR (some c)) ip.fieldsI) = _
        rw [hABs, hAB]
        simp [childrenOfVal]
      · simp at h
/-- Every operation of the public interface preserves the container
invariant. -/
theorem wstep_inv {schema : Schema} {w w' : World} {op : WOp}
    (hInv : InvW w) (h : wstep schema w op = some w') : InvW w' := by
  cases op with
  | createW t u => exact createInst_inv hInv h
  | appendW p key c => exact appendItem_inv hInv h
  | removeW p key c => exact removeItem_inv hInv h
  | setFieldW p key cOpt => exact setSingleField_inv hInv h

/-- C4: under the registry model, every interface operation preserves the
container invariant; under the invariant an object's container is non-empty
exactly when the object currently sits in some instance's component slots
(single component field or array-of-component element), and no object has
two owning containers; appending to an array-of-component field sets the
child's container to its parent while appending to an array-of-reference
field changes no container; removing from an array-of-component field clears
the removed child's container; clearing a single-valued component field
clears the previous child's container; and setting a reference field changes
no container. -/
theorem container_invariant :
    (∀ (schema : Schema) (w w' : World) (op : WOp),
        InvW w → wstep schema w op = some w' → InvW w') ∧
    (∀ w : World, InvW w → ∀ (c : Nat) (ic : Inst),
        NSModel.findVal c w.registry = some ic →
        (ic.containerI ≠ none ↔ ∃ x ∈ w.registry, c ∈ compChildren x.2)) ∧
    (∀ w : World, InvW w → ∀ c p1 p2 : Nat,
        ownsEdge w p1 c → ownsEdge w p2 c → p1 = p2) ∧
    (∀ (w w' : World) (p c : Nat) (key : String) (ip : Inst) (cs : List Nat),
        NSModel.findVal p w.registry = some ip →
        NSModel.findVal key ip.fieldsI = some (.arrCompR cs) →
        appendItem w p key c = some w' → containerOf w' c = some (some p)) ∧
    (∀ (w w' : World) (p c : Nat) (key : String) (ip : Inst) (rs : List Nat),
        NSModel.findVal p w.registry = some ip →
        NSModel.findVal key ip.fieldsI = some (.arrRefR rs) →
        appendItem w p key c = some w' →
        ∀ d : Nat, containerOf w' d = containerOf w d) ∧
    (∀ (w w' : World) (p c : Nat) (key : String) (ip : Inst) (cs : List Nat),
        InvW w →
        NSModel.findVal p w.registry = some ip →
        NSModel.findVal key ip.fieldsI = some (.arrCompR cs) →
        removeItem w p key c = some w' → containerOf w' c = some none) ∧
    (∀ (w w' : World) (p oc : Nat) (key : String) (ip : Inst),
        InvW w →
        NSModel.findVal p w.registry = some ip →
        NSModel.findVal key ip.fieldsI = some (.compR (some oc)) →
        setSingleField w p key none = some w' → containerOf w' oc = some none) ∧
    (∀ (w w' : World) (p : Nat) (key : String) (cOpt : Option Nat) (ip : Inst)
        (r : Option Nat),
        NSModel.findVal p w.registry = some ip →
        NSModel.findVal key ip.fieldsI = some (.refR r) →
        setSingleField w p key cOpt = some w' →
        ∀ d : Nat, containerOf w' d = containerOf w d) := by
  refine ⟨?_, ?_, ?_, ?_, ?_, ?_, ?_, ?_⟩
  · intro schema w w' op hInv h
    exact wstep_inv hInv h
  · intro w hInv c ic hcfv
    obtain ⟨h1, h2, h3, h4, h5⟩ := hInv
    constructor
    · intro hne
      cases hic : ic.containerI with
      | none => exact absurd hic hne
      | some q =>
        obtain ⟨ipp, hm, hfst, hchild⟩ :=
          h4 (c, ic) (findVal_mem hcfv) q (by simp [hic])
        exact ⟨ipp, hm, hchild⟩
    · intro hex
      obtain ⟨x, hx, hchild⟩ := hex
      have hco := h3 x hx c hchild
      rw [containerOf, hcfv] at hco
      have hic : ic.containerI = some x.1 := Option.some.inj hco
      rw [hic]
      simp
  · intro w hInv c p1 p2 he1 he2
    obtain ⟨h1, h2, h3, h4, h5⟩ := hInv
    obtain ⟨i1, hf1, hc1⟩ := he1
    obtain ⟨i2, hf2, hc2⟩ := he2
    have hco1 := h3 (p1, i1) (findVal_mem hf1) c hc1
    have hco2 := h3 (p2, i2) (findVal_mem hf2) c hc2
    rw [hco1] at hco2
    exact Option.some.inj (Option.some.inj hco2)
  · intro w w' p c key ip cs hp hf happ
    simp only [appendItem, hp, hf] at happ
    split at happ
    · simp at happ
    · rename_i ic hc
      split at happ
      · rename_i hguard
        cases happ
        obtain ⟨hnone, hcp⟩ := hguard
        have hFc1 : NSModel.findVal c
            (updateReg w.registry p (setFieldI ip key (.arrCompR (cs ++ [c]))))
            = some ic := by
          rw [findVal_updateReg_ne _ _ _ _ hcp]
          exact hc
        rw [containerOf_mk, findVal_updateReg_self _ _ _ _ hFc1]
        rfl
      · simp at happ
  · intro w w' p c key ip rs hp hf happ
    simp only [appendItem, hp, hf] at happ
    split at happ
    · simp at happ
    · cases happ
      intro d
      rw [containerOf_mk]
      by_cases hdp : d = p
      · rw [hdp, findVal_updateReg_self _ _ _ _ hp, containerOf, hp]
        rfl
      · rw [findVal_updateReg_ne _ _ _ _ hdp, containerOf]
  · intro w w' p c key ip cs hInv hp hf hrem
    obtain ⟨h1, h2, h3, h4, h5⟩ := hInv
    simp only [removeItem, hp, hf] at hrem
    split at hrem
    · rename_i hcmem
      cases hrem
      obtain ⟨A, B, hAB, hABs⟩ := compChildrenL_setVal hf (.arrCompR (cs.erase c))
      have hcchild : c ∈ compChildren ip := by
        rw [compChildren, hAB]
        exact List.mem_append.mpr (Or.inr (List.mem_append.mpr (Or.inl hcmem)))
      have hcp : c ≠ p := by
        intro he
        exact h5 (p, ip) (findVal_mem hp) (he ▸ hcchild)
      have hcco := h3 (p, ip) (findVal_mem hp) c hcchild
      obtain ⟨ic, hcfv, hicc⟩ : ∃ ic, NSModel.findVal c w.registry = some ic ∧
          ic.containerI = some p := by
        rw [containerOf] at hcco
        cases hcfv : NSModel.findVal c w.registry with
        | none => rw [hcfv] at hcco; simp at hcco
        | some ic =>
          rw [hcfv] at hcco
          simp only [Option.map_some] at hcco
          exact ⟨ic, rfl, Option.some.inj hcco⟩
      have hFc1 : NSModel.findVal c
          (updateReg w.registry p (setFieldI ip key (.arrCompR (cs.erase c))))
          = some ic := by
        rw [findVal_updateReg_ne _ _ _ _ hcp]
        exact hcfv
      rw [setContainer_eq hFc1, containerOf_mk, findVal_updateReg_self _ _ _ _ hFc1]
      rfl
    · simp at hrem
  · intro w w' p oc key ip hInv hp hf hset
    obtain ⟨h1, h2, h3, h4, h5⟩ := hInv
    simp only [setSingleField, hp, hf, clearOld] at hset
    cases hset
    obtain ⟨A, B, hAB, hABs⟩ := compChildrenL_setVal hf (.compR none)
    have hocchild : oc ∈ compChildren ip := by
      rw [compChildren, hAB]
      exact List.mem_append.mpr (Or.inr (List.mem_append.mpr (Or.inl (by simp [childrenOfVal]))))
    have hocp : oc ≠ p := by
      intro he
      exact h5 (p, ip) (findVal_mem hp) (he ▸ hocchild)
    have hocco := h3 (p, ip) (findVal_mem hp) oc hocchild
    obtain ⟨ioc, hocfv, hiocc⟩ : ∃ ioc, NSModel.findVal oc w.registry = some ioc ∧
        ioc.containerI = some p := by
      rw [containerOf] at hocco
      cases hocfv : NSModel.findVal oc w.registry with
      | none => rw [hocfv] at hocco; simp at hocco
      | some ioc =>
        rw [hocfv] at hocco
        simp only [Option.map_some] at hocco
        exact ⟨ioc, rfl, Option.some.inj hocco⟩
    have hFoc1 : NSModel.findVal oc
        (updateReg w.registry p (setFieldI ip key (.compR none))) = some ioc := by
      rw [findVal_updateReg_ne _ _ _ _ hocp]
      exact hocfv
    rw [setContainer_eq hFoc1, containerOf_mk, findVal_updateReg_self _ _ _ _ hFoc1]
    rfl
  · intro w w' p key cOpt ip r hp hf hset
    simp only [setSingleField, hp, hf] at hset
    cases hset
    intro d
    rw [containerOf_mk]
    by_cases hdp : d = p
    · rw [hdp, findVal_updateReg_self _ _ _ _ hp, containerOf, hp]
      rfl
    · rw [findVal_updateReg_ne _ _ _ _ hdp, containerOf]

/-- C4 witness. -/
theorem container_invariant_witness : InvW wEx2 :=
  container_invariant.1 exSchema wEx1 wEx2 (WOp.appendW 1 "components" 2)
    (by unfold InvW; decide) (by decide)

/-- C7: every successful append to an array field appends exactly one
item_inserted event to the event log, every successful removal appends
exactly one item_removed event, whether the array holds components or
references; and the scenario of the event test reaches the cumulative
(inserted, removed) counters (2,0), (2,1), (4,1) and (4,2). -/
theorem array_events_exactly_once :
    (∀ (w w' : World) (p c : Nat) (key : String),
        appendItem w p key c = some w' →
        ∃ i : Nat, w'.events = w.events ++ [⟨p, EvKind.insertedE, key, i⟩]) ∧
    (∀ (w w' : World) (p c : Nat) (key : String),
        removeItem w p key c = some w' →
        ∃ i : Nat, w'.events = w.events ++ [⟨p, EvKind.removedE, key, i⟩]) ∧
    (runOps exSchema emptyW opsSetup).map evCounters = some (2, 0) ∧
    (runOps exSchema emptyW opsRemove).map evCounters = some (2, 1) ∧
    (runOps exSchema emptyW opsRefs).map evCounters = some (4, 1) ∧
    (runOps exSchema emptyW opsAll).map evCounters = some (4, 2) := by
  refine ⟨?_, ?_, ?_, ?_, ?_, ?_⟩
  · intro w w' p c key happ
    simp only [appendItem] at happ
    split at happ
    · simp at happ
    · rename_i ip hp
      split at happ
      · rename_i cs hf
        split at happ
        · simp at happ
        · rename_i ic hc
          split at happ
          · cases happ
            exact ⟨cs.length, rfl⟩
          · simp at happ
      · rename_i rs hf
        split at happ
        · simp at happ
        · cases happ
          exact ⟨rs.length, rfl⟩
      · simp at happ
  · intro w w' p c key hrem
    simp only [removeItem] at hrem
    split at hrem
    · simp at hrem
    · rename_i ip hp
      split at hrem
      · rename_i cs hf
        split at hrem
        · cases hrem
          exact ⟨cs.indexOf c, rfl⟩
        · simp at hrem
      · rename_i rs hf
        split at hrem
        · cases hrem
          exact ⟨rs.indexOf c, rfl⟩
        · simp at hrem
      · simp at hrem
  · decide
  · decide
  · decide
  · decide

/-- C7 witness. -/
theorem array_events_exactly_once_witness :
    ∃ i : Nat, wEx2.events = wEx1.events ++ [⟨1, EvKind.insertedE, "components", i⟩] :=
  array_events_exactly_once.1 wEx1 wEx2 1 2 "components" (by decide)

end HeapM
